import Mathlib

/-!
# Cluster manager: cache of per-cluster API servers

A shallow embedding of `cluster/manager.go`.

* The `sync.Map` field `servers` is a total function from keys to optional
  records, with `Load`, `LoadOrStore` and `Delete` as its atomic operations.
* Everything the manager calls but does not define (the cluster lister,
  `url.Parse`, `base64.StdEncoding.DecodeString`, `config.NewClusterContext`,
  `clusterapi.New`, `clusterContext.Start`) is taken as a parameter
  (`Collab`, `Manager`).  Every call made to one of them, and every
  `logrus.Errorf` line, is appended to the `trace` of the world.
* `context.WithCancel` hands out fresh context numbers; invoking a cancel
  function appends the number to `cancels`.
* The goroutine started by `APIServer` is a record of the variables its
  closure captures together with a program counter into its four statements.
* Concurrency is a step function on `System`: a step is a `Load`, a call of
  `toServer` with its logging, a `LoadOrStore` with the `go` statement that
  follows it, one statement of a goroutine, or the passage of time.  A goroutine
  statement may run once the clock has reached its wake-up time (`time.Sleep`
  sleeps at least the duration asked for); `punctual` singles out the
  executions in which it runs exactly then.
-/

namespace Cluster

/-! ## Data model -/

/-- Go `error` values: `none` is `nil`. -/
abbrev Error := String

/-- Opaque `http.Handler` values. -/
abbrev Handler := Nat

/-- The constant `time.Minute`; a `time.Nat` counts nanoseconds. -/
def Minute : Nat := 60 * 1000000000

/-- The public `client.Cluster` object handed to `APIServer`. -/
structure ClientCluster where
  ID : String
  Uuid : String
deriving DecidableEq, Repr

/-- The fields of a `v3.Cluster` read by `toRESTConfig`. -/
structure V3Cluster where
  Internal : Bool
  APIEndpoint : String
  CACert : String
  ServiceAccountToken : String
deriving DecidableEq, Repr

/-- The fields of `url.URL` read by `toRESTConfig`. -/
structure URL where
  Host : String
  Path : String
deriving DecidableEq, Repr

/-- The fields of `rest.Config` written by `toRESTConfig`. -/
structure RestConfig where
  Host : String
  Prefix : String
  BearerToken : String
  CAData : List Nat
deriving DecidableEq, Repr

/-- Opaque `config.ClusterContext` values. -/
abbrev ClusterContext := Nat

/-- The struct `record`.  Contexts are numbered in the order `context.WithCancel`
creates them: `ctx` is the number of the context and `cancel` the number of the
context that calling the cancel function cancels. -/
structure record where
  handler : Option Handler
  ctx : Nat
  cancel : Nat
deriving DecidableEq, Repr

/-- The fields of `Manager` other than `servers` (which is mutable state and
lives in `World`).  `ClusterLister id` is `ClusterLister.Get("", id)`. -/
structure Manager where
  ClusterLister : String → Option V3Cluster × Option Error
  ManagementConfig : RestConfig
  LocalConfig : Option RestConfig

/-- The library functions called by the manager. -/
structure Collab where
  urlParse : String → Except Error URL
  decodeString : String → Except Error (List Nat)
  newClusterContext : RestConfig → RestConfig → String → Except Error ClusterContext
  clusterapiNew : Nat → ClusterContext → Option Handler × Option Error
  start : ClusterContext → Nat → Option Error

/-- Calls to collaborators and log lines, in the order they happen. -/
inductive Event where
  | listerGet (id : String)
  | urlParse (s : String)
  | decodeString (s : String)
  | newClusterContext (id : String)
  | withCancel (ctx : Nat)
  | clusterapiNew (ctx : Nat)
  | start (ctx : Nat)
  | errorf (id : String) (err : Error)
deriving DecidableEq, Repr

/-- The statements of the goroutine started by `APIServer`. -/
inductive Instr where
  | sleep (d : Nat)
  | delete (key : String)
  | cancel (obj : record)
deriving DecidableEq, Repr

/-- The body of the `go func()` in `APIServer`, with the captured
`cluster.Uuid` and `obj`. -/
def evictionScheduler (key : String) (obj : record) : List Instr :=
  [Instr.sleep (10 * Minute), Instr.delete key, Instr.sleep Minute, Instr.cancel obj]

/-- A running eviction goroutine: the captured variables, the index of its next
statement and the time at which that statement runs. -/
structure Goroutine where
  key : String
  obj : record
  pc : Nat
  clock : Nat
deriving DecidableEq, Repr

/-- The `sync.Map` named `servers`. -/
abbrev SyncMap := String → Option record

/-- Method `sync.Map.Load`. -/
def SyncMap.Load (m : SyncMap) (key : String) : Option record := m key

/-- Method `sync.Map.LoadOrStore`: the value now stored and whether it was
already there. -/
def SyncMap.LoadOrStore (m : SyncMap) (key : String) (value : record) :
    (record × Bool) × SyncMap :=
  match m key with
  | some actual => ((actual, true), m)
  | none => ((value, false), Function.update m key (some value))

/-- Method `sync.Map.Delete`. -/
def SyncMap.Delete (m : SyncMap) (key : String) : SyncMap :=
  Function.update m key none

/-- The mutable state shared by all callers and goroutines. -/
structure World where
  servers : SyncMap
  nextCtx : Nat
  cancels : List Nat
  goroutines : List Goroutine
  trace : List Event
  now : Nat

/-- The state of a freshly made `Manager` at time zero. -/
def World.empty : World :=
  { servers := fun _ => none, nextCtx := 0, cancels := [], goroutines := [], trace := [], now := 0 }

/-- Append an event to the trace. -/
def World.emit (w : World) (e : Event) : World :=
  { w with trace := w.trace ++ [e] }

/-- The `logrus.Errorf` lines of the trace. -/
def World.errorLogs (w : World) : List Event :=
  w.trace.filter (fun e => match e with
    | Event.errorf _ _ => true
    | _ => false)

/-- Whether the context has been cancelled. -/
def World.cancelled (w : World) (ctx : Nat) : Bool := decide (ctx ∈ w.cancels)

/-! ## The functions of `manager.go` -/

/-- Method `Manager.toRESTConfig`. -/
def toRESTConfig (x : Collab) (c : Manager) (publicCluster : ClientCluster) (w : World) :
    (Option RestConfig × Option Error) × World :=
  let w := w.emit (Event.listerGet publicCluster.ID)
  match c.ClusterLister publicCluster.ID with
  | (_, some err) => ((none, some err), w)
  | (none, none) => ((none, none), w)
  | (some cluster, none) =>
    if cluster.Internal then ((c.LocalConfig, none), w)
    else if cluster.APIEndpoint = "" ∨ cluster.CACert = "" ∨ cluster.ServiceAccountToken = "" then
      ((none, none), w)
    else
      let w := w.emit (Event.urlParse cluster.APIEndpoint)
      match x.urlParse cluster.APIEndpoint with
      | Except.error err => ((none, some err), w)
      | Except.ok u =>
        let w := w.emit (Event.decodeString cluster.CACert)
        match x.decodeString cluster.CACert with
        | Except.error err => ((none, some err), w)
        | Except.ok caBytes =>
          ((some { Host := u.Host, Prefix := u.Path,
                   BearerToken := cluster.ServiceAccountToken, CAData := caBytes }, none), w)

/-- Method `Manager.toServer`. -/
def toServer (x : Collab) (c : Manager) (cluster : ClientCluster) (w : World) :
    (Option record × Option Error) × World :=
  match toRESTConfig x c cluster w with
  | ((_, some err), w) => ((none, some err), w)
  | ((none, none), w) => ((none, none), w)
  | ((some kubeConfig, none), w) =>
    let w := w.emit (Event.newClusterContext cluster.ID)
    match x.newClusterContext c.ManagementConfig kubeConfig cluster.ID with
    | Except.error err => ((none, some err), w)
    | Except.ok clusterContext =>
      let id := w.nextCtx
      let w := { w with nextCtx := id + 1 }.emit (Event.withCancel id)
      let w := w.emit (Event.clusterapiNew id)
      match x.clusterapiNew id clusterContext with
      | (_, some err) => ((none, some err), w)
      | (handler, none) =>
        let s : record := { handler := handler, ctx := id, cancel := id }
        let w := w.emit (Event.start id)
        match x.start clusterContext id with
        | some err => ((some s, some err), w)
        | none => ((some s, none), w)

/-- Lines 46 to 52 of `APIServer`: call `toServer`, log an error if there is
one, and decide whether to go on (`some server`) or to return nil (`none`). -/
def APIServer.build (x : Collab) (c : Manager) (cluster : ClientCluster) (w : World) :
    Option record × World :=
  match toServer x c cluster w with
  | ((_, some err), w) => (none, w.emit (Event.errorf cluster.ID err))
  | ((none, none), w) => (none, w)
  | ((some server, none), w) => (some server, w)

/-- Lines 54 to 64 of `APIServer`: `LoadOrStore`, the `go` statement when the
record was stored, and the returned handler. -/
def APIServer.store (cluster : ClientCluster) (server : record) (w : World) :
    Option Handler × World :=
  match w.servers.LoadOrStore cluster.Uuid server with
  | ((obj, loaded), servers) =>
    let w := { w with servers := servers }
    if !loaded then
      (obj.handler,
        { w with goroutines := w.goroutines ++
            [{ key := cluster.Uuid, obj := obj, pc := 0, clock := w.now }] })
    else
      (obj.handler, w)

/-- Method `Manager.APIServer`, run without interruption. -/
def APIServer (x : Collab) (c : Manager) (cluster : ClientCluster) (w : World) :
    Option Handler × World :=
  match w.servers.Load cluster.Uuid with
  | some obj => (obj.handler, w)
  | none =>
    match APIServer.build x c cluster w with
    | (none, w) => (none, w)
    | (some server, w) => APIServer.store cluster server w

/-! ## Interleaved execution -/

/-- The next statement of a goroutine, if it has not finished. -/
def Goroutine.next (g : Goroutine) : Option Instr :=
  (evictionScheduler g.key g.obj)[g.pc]?

/-- Whether the goroutine has not yet performed its `Delete`. -/
def Goroutine.beforeDelete (g : Goroutine) : Bool := decide (g.pc ≤ 1)

/-- Whether the goroutine has run all four statements. -/
def Goroutine.finished (g : Goroutine) : Bool := decide (4 ≤ g.pc)

/-- The effect of one goroutine statement on the shared state. -/
def Instr.run (ins : Instr) (w : World) : World :=
  match ins with
  | Instr.sleep _ => w
  | Instr.delete key => { w with servers := w.servers.Delete key }
  | Instr.cancel obj => { w with cancels := w.cancels ++ [obj.cancel] }

/-- The time at which the statement after `ins` may run, when `ins` runs at
time `t`: `time.Sleep d` returns no earlier than `t + d`. -/
def Instr.wake (ins : Instr) (t : Nat) : Nat :=
  match ins with
  | Instr.sleep d => t + d
  | _ => t

/-- The goroutine after it ran its statement `ins` at time `t`. -/
def Goroutine.advance (g : Goroutine) (ins : Instr) (t : Nat) : Goroutine :=
  { g with pc := g.pc + 1, clock := ins.wake t }

/-- Where a call of `APIServer` stands between its atomic steps. -/
inductive Call where
  | entry (cluster : ClientCluster)
  | missed (cluster : ClientCluster)
  | built (cluster : ClientCluster) (server : record)
  | returned (cluster : ClientCluster) (ret : Option Handler)
deriving DecidableEq, Repr

/-- The shared state together with the calls of `APIServer` in progress. -/
structure System where
  world : World
  calls : List Call

/-- A manager on which `APIServer` has never been called. -/
def System.empty : System := { world := World.empty, calls := [] }

/-- One atomic step of one thread.  A `build` step carries the behaviour of the
collaborators at that moment. -/
inductive Action where
  | invoke (cluster : ClientCluster)
  | load (i : Nat)
  | build (i : Nat) (x : Collab) (c : Manager)
  | store (i : Nat)
  | sched (j : Nat)
  | tick (d : Nat)

/-- Whether the action is a step of an eviction goroutine. -/
def Action.isSched : Action → Bool
  | Action.sched _ => true
  | _ => false

/-- The step function: `none` when the action is not enabled.  A goroutine
statement is enabled once the clock has reached the wake-up time of the
goroutine. -/
def step (s : System) : Action → Option System
  | Action.invoke cluster => some { s with calls := s.calls ++ [Call.entry cluster] }
  | Action.load i =>
    match s.calls[i]? with
    | some (Call.entry cluster) =>
      match s.world.servers.Load cluster.Uuid with
      | some obj => some { s with calls := s.calls.set i (Call.returned cluster obj.handler) }
      | none => some { s with calls := s.calls.set i (Call.missed cluster) }
    | _ => none
  | Action.build i x c =>
    match s.calls[i]? with
    | some (Call.missed cluster) =>
      match APIServer.build x c cluster s.world with
      | (none, w) => some { world := w, calls := s.calls.set i (Call.returned cluster none) }
      | (some server, w) => some { world := w, calls := s.calls.set i (Call.built cluster server) }
    | _ => none
  | Action.store i =>
    match s.calls[i]? with
    | some (Call.built cluster server) =>
      match APIServer.store cluster server s.world with
      | (ret, w) => some { world := w, calls := s.calls.set i (Call.returned cluster ret) }
    | _ => none
  | Action.sched j =>
    match s.world.goroutines[j]? with
    | some g =>
      match g.next with
      | some ins =>
        if g.clock ≤ s.world.now then
          let w := ins.run s.world
          some { s with world :=
            { w with goroutines := w.goroutines.set j (g.advance ins s.world.now) } }
        else none
      | none => none
    | none => none
  | Action.tick d => some { s with world := { s.world with now := s.world.now + d } }

/-- Run a sequence of actions. -/
def run (s : System) : List Action → Option System
  | [] => some s
  | a :: as => (step s a).bind (fun t => run t as)

/-- The states reachable from the empty manager by any interleaving. -/
def Reachable (s : System) : Prop := ∃ as, run System.empty as = some s

/-! ## Exact timers -/

/-- Whether the action is a `LoadOrStore` step. -/
def Action.isStore : Action → Bool
  | Action.store _ => true
  | _ => false

/-- Whether the action respects exact timers in state `s`: a goroutine statement
runs at the very instant its goroutine wakes up, and time does not move past the
wake-up time of a goroutine that still has a statement to run. -/
def punctual (s : System) : Action → Bool
  | Action.sched j =>
    match s.world.goroutines[j]? with
    | some g => decide (g.clock = s.world.now)
    | none => true
  | Action.tick d =>
    s.world.goroutines.all (fun g => g.finished || decide (s.world.now + d ≤ g.clock))
  | _ => true

/-- Run a sequence of actions with exact timers. -/
def runPunctual (s : System) : List Action → Option System
  | [] => some s
  | a :: as => if punctual s a then (step s a).bind (fun t => runPunctual t as) else none

/-- Where the goroutine `j`, started at time `T` for key `k` and record `r`,
stands in state `s`, with the time at which it reached that point. -/
def Timeline (s : System) (j : Nat) (k : String) (r : record) (T : Nat) : Prop :=
  ∃ g, s.world.goroutines[j]? = some g ∧ g.key = k ∧ g.obj = r ∧ T ≤ s.world.now ∧
    (g.pc < 4 → s.world.now ≤ g.clock) ∧
    ((g.pc = 0 ∧ g.clock = T) ∨
     (g.pc = 1 ∧ g.clock = T + 10 * Minute) ∨
     (g.pc = 2 ∧ g.clock = T + 10 * Minute ∧ T + 10 * Minute ≤ s.world.now) ∨
     (g.pc = 3 ∧ g.clock = T + 10 * Minute + Minute ∧ T + 10 * Minute ≤ s.world.now) ∨
     (g.pc = 4 ∧ T + 10 * Minute + Minute ≤ s.world.now))

/-- Lower bounds that hold for every timing `time.Sleep` allows: where the
goroutine `j`, started at time `T` for key `k` and record `r`, stands in state
`s`, and the earliest time at which it can have got there. -/
def NotEarly (s : System) (j : Nat) (k : String) (r : record) (T : Nat) : Prop :=
  ∃ g, s.world.goroutines[j]? = some g ∧ g.key = k ∧ g.obj = r ∧
    ((g.pc = 0 ∧ T ≤ g.clock) ∨
     (g.pc = 1 ∧ T + 10 * Minute ≤ g.clock) ∨
     (g.pc = 2 ∧ T + 10 * Minute ≤ s.world.now) ∨
     (g.pc = 3 ∧ T + 10 * Minute + Minute ≤ g.clock ∧ T + 10 * Minute ≤ s.world.now) ∨
     (g.pc = 4 ∧ T + 10 * Minute + Minute ≤ s.world.now))

/-- No goroutine started before goroutine `j` may still delete key `k`. -/
def Later (s : System) (j : Nat) (k : String) : Prop :=
  j ≤ s.world.goroutines.length ∧
  ∀ (i : Nat) (g : Goroutine), s.world.goroutines[i]? = some g → g.key = k → g.pc ≤ 1 → j ≤ i

/-- No goroutine is overdue: one that still has a statement to run wakes up now
or later. -/
def OnTime (s : System) : Prop :=
  ∀ (j : Nat) (g : Goroutine), s.world.goroutines[j]? = some g → g.pc < 4 →
    s.world.now ≤ g.clock

/-- The number of goroutine statements still to be run. -/
def remaining (s : System) : Nat := (s.world.goroutines.map (fun g => 4 - g.pc)).sum

/-- Whether the action is a goroutine statement or the passage of time. -/
def Action.isTimer : Action → Bool
  | Action.sched _ => true
  | Action.tick _ => true
  | _ => false

/-- Every call that has returned a handler since the calls stood as in `c0`
returned the handler of the record now stored under its key. -/
def Agree (c0 : List Call) (s : System) : Prop :=
  ∀ (i : Nat) (cl : ClientCluster) (h : Handler),
    s.calls[i]? = some (Call.returned cl (some h)) →
    c0[i]? = some (Call.returned cl (some h)) ∨
      ∃ r, s.world.servers cl.Uuid = some r ∧ r.handler = some h

/-- What a run without goroutine steps keeps of the state `s0` it started from:
the goroutines of `s0` are where they were, every goroutine started since is at
its first statement, and the records stored in `s0` are still stored. -/
def Grown (s0 s : System) : Prop :=
  (∀ (j : Nat), j < s0.world.goroutines.length →
    s.world.goroutines[j]? = s0.world.goroutines[j]?) ∧
  (∀ (j : Nat) (g : Goroutine), s0.world.goroutines.length ≤ j →
    s.world.goroutines[j]? = some g → g.pc = 0) ∧
  s0.world.goroutines.length ≤ s.world.goroutines.length ∧
  (∀ (k : String) (q : record), s0.world.servers k = some q → s.world.servers k = some q)

/-! ## Invariants of the interleaved execution -/

/-- The invariant of the shared state.  A goroutine that has not yet deleted its
key finds its own record stored under it; every stored record has such a
goroutine; goroutines are bound to pairwise different contexts, all of them
already created; a cancel function has been invoked exactly for the goroutines
that have finished, and at most once. -/
structure WorldInv (w : World) : Prop where
  stored_of_pending : ∀ (j : Nat) (g : Goroutine), w.goroutines[j]? = some g → g.pc ≤ 1 →
    w.servers g.key = some g.obj
  pending_of_stored : ∀ (k : String) (r : record), w.servers k = some r →
    ∃ (j : Nat) (g : Goroutine), w.goroutines[j]? = some g ∧ g.key = k ∧ g.obj = r ∧ g.pc ≤ 1
  ctx_inj : ∀ (i j : Nat) (g h : Goroutine), w.goroutines[i]? = some g →
    w.goroutines[j]? = some h → g.obj.cancel = h.obj.cancel → i = j
  ctx_lt : ∀ (j : Nat) (g : Goroutine), w.goroutines[j]? = some g → g.obj.cancel < w.nextCtx
  cancels_finished : ∀ (c : Nat), c ∈ w.cancels →
    ∃ (j : Nat) (g : Goroutine), w.goroutines[j]? = some g ∧ g.obj.cancel = c ∧ 4 ≤ g.pc
  finished_cancels : ∀ (j : Nat) (g : Goroutine), w.goroutines[j]? = some g → 4 ≤ g.pc →
    g.obj.cancel ∈ w.cancels
  cancels_nodup : w.cancels.Nodup

/-- The invariant of the calls in progress: a record that has been built but
not yet offered to the map has a context of its own. -/
structure CallsInv (w : World) (calls : List Call) : Prop where
  built_lt : ∀ (i : Nat) (cl : ClientCluster) (r : record),
    calls[i]? = some (Call.built cl r) → r.cancel < w.nextCtx
  built_ne : ∀ (i : Nat) (cl : ClientCluster) (r : record) (j : Nat) (g : Goroutine),
    calls[i]? = some (Call.built cl r) → w.goroutines[j]? = some g → g.obj.cancel ≠ r.cancel
  built_inj : ∀ (i k : Nat) (cl cm : ClientCluster) (r q : record),
    calls[i]? = some (Call.built cl r) → calls[k]? = some (Call.built cm q) →
    r.cancel = q.cancel → i = k

/-- The invariant of the system. -/
def Inv (s : System) : Prop := WorldInv s.world ∧ CallsInv s.world s.calls

/-! ## Concrete inputs -/

/-- A public cluster object. -/
def demoCluster : ClientCluster := { ID := "c-1", Uuid := "uuid-1" }

/-- A cluster whose endpoint, certificate and token are all present. -/
def readyCluster : V3Cluster :=
  { Internal := false, APIEndpoint := "https://10.0.0.1:6443/k8s", CACert := "Q0E=",
    ServiceAccountToken := "token" }

/-- A cluster whose certificate has not been written yet. -/
def pendingCluster : V3Cluster :=
  { Internal := false, APIEndpoint := "https://10.0.0.1:6443/k8s", CACert := "",
    ServiceAccountToken := "token" }

/-- A management configuration. -/
def demoConfig : RestConfig := { Host := "mgmt", Prefix := "", BearerToken := "", CAData := [] }

/-- A manager whose lister knows `readyCluster`. -/
def readyManager : Manager :=
  { ClusterLister := fun _ => (some readyCluster, none), ManagementConfig := demoConfig,
    LocalConfig := none }

/-- A manager whose lister knows `pendingCluster`. -/
def pendingManager : Manager :=
  { ClusterLister := fun _ => (some pendingCluster, none), ManagementConfig := demoConfig,
    LocalConfig := none }

/-- A manager whose lister finds nothing. -/
def emptyManager : Manager :=
  { ClusterLister := fun _ => (none, none), ManagementConfig := demoConfig,
    LocalConfig := none }

/-- Collaborators that all succeed; the handler built in context `n` is `100 + n`. -/
def okCollab : Collab :=
  { urlParse := fun _ => Except.ok { Host := "10.0.0.1:6443", Path := "/k8s" },
    decodeString := fun _ => Except.ok [67, 65],
    newClusterContext := fun _ _ _ => Except.ok 7,
    clusterapiNew := fun n _ => (some (100 + n), none),
    start := fun _ _ => none }

/-- Collaborators where `clusterContext.Start` fails. -/
def startFails : Collab :=
  { okCollab with start := fun _ _ => some "start failed" }

/-- Collaborators where `clusterapi.New` fails. -/
def newFails : Collab :=
  { okCollab with clusterapiNew := fun _ _ => (none, some "new failed") }

/-- One call that misses, builds and stores its record. -/
def soloRun : List Action :=
  [Action.invoke demoCluster, Action.load 0, Action.build 0 okCollab readyManager, Action.store 0]

/-- The system after `soloRun`. -/
def soloSystem : System := (run System.empty soloRun).getD System.empty

/-- The whole life of one record: `soloRun`, then the goroutine with exact timers. -/
def lifeRun : List Action :=
  soloRun ++ [Action.sched 0, Action.tick (10 * Minute), Action.sched 0, Action.sched 0,
    Action.tick Minute]

/-- The system after `lifeRun`, with the goroutine about to invoke cancel. -/
def lifeSystem : System := (run System.empty lifeRun).getD System.empty

/-- One call that misses and builds its record. -/
def builtRun : List Action :=
  [Action.invoke demoCluster, Action.load 0, Action.build 0 okCollab readyManager]

/-- The system after `builtRun`: the record has not been offered to the map yet. -/
def builtSystem : System := (run System.empty builtRun).getD System.empty

/-- What follows the insertion with exact timers: a second call hits after five
minutes, the goroutine deletes after ten and cancels after eleven. -/
def evictionRun : List Action :=
  [Action.sched 0, Action.tick (5 * Minute), Action.invoke demoCluster, Action.load 1,
    Action.tick (5 * Minute), Action.sched 0, Action.sched 0, Action.tick Minute,
    Action.sched 0, Action.tick 1]

/-- The system one nanosecond after the goroutine has cancelled. -/
def evictedSystem : System := (runPunctual soloSystem evictionRun).getD System.empty

/-- Two calls for the same key that both miss and both build before either stores. -/
def raceRun : List Action :=
  [Action.invoke demoCluster, Action.invoke demoCluster, Action.load 0, Action.load 1,
    Action.build 0 okCollab readyManager, Action.build 1 okCollab readyManager,
    Action.store 0]

/-- The system after `raceRun`: call 0 has stored its record, call 1 is about to
offer its own. -/
def raceSystem : System := (run System.empty raceRun).getD System.empty

/-- The race run to its end: call 1 offers its record too. -/
def raceDoneRun : List Action := raceRun ++ [Action.store 1]

/-- The system after `raceDoneRun`. -/
def raceDoneSystem : System := (run System.empty raceDoneRun).getD System.empty

/-- The race followed by the whole life of the only goroutine. -/
def raceEndRun : List Action :=
  raceDoneRun ++ [Action.sched 0, Action.tick (10 * Minute), Action.sched 0, Action.sched 0,
    Action.tick Minute, Action.sched 0]

/-- The system after `raceEndRun`. -/
def raceEndSystem : System := (run System.empty raceEndRun).getD System.empty

/-- A single call whose lister finds no cluster. -/
def absentRun : List Action :=
  [Action.invoke demoCluster, Action.load 0, Action.build 0 okCollab emptyManager]

/-- The system after `absentRun`. -/
def absentSystem : System := (run System.empty absentRun).getD System.empty

/-- The world after one successful call of `APIServer` on the empty manager. -/
def warmWorld : World := (APIServer okCollab readyManager demoCluster World.empty).2

/-! ## Frame lemmas for the sequential functions -/

theorem errorLogs_emit (w : World) (e : Event) :
    (w.emit e).errorLogs = w.errorLogs ++
      (match e with
        | Event.errorf _ _ => [e]
        | _ => []) := by
  cases e <;> simp [World.emit, World.errorLogs]

theorem toRESTConfig_frame (x : Collab) (c : Manager) (cluster : ClientCluster) (w : World) :
    (toRESTConfig x c cluster w).2.servers = w.servers ∧
    (toRESTConfig x c cluster w).2.nextCtx = w.nextCtx ∧
    (toRESTConfig x c cluster w).2.cancels = w.cancels ∧
    (toRESTConfig x c cluster w).2.goroutines = w.goroutines ∧
    (toRESTConfig x c cluster w).2.now = w.now ∧
    (toRESTConfig x c cluster w).2.errorLogs = w.errorLogs := by
  unfold toRESTConfig
  simp only
  repeat' split
  all_goals simp [errorLogs_emit]
  all_goals simp [World.emit]

theorem toServer_frame (x : Collab) (c : Manager) (cluster : ClientCluster) (w : World) :
    (toServer x c cluster w).2.servers = w.servers ∧
    (toServer x c cluster w).2.cancels = w.cancels ∧
    (toServer x c cluster w).2.goroutines = w.goroutines ∧
    (toServer x c cluster w).2.now = w.now ∧
    (toServer x c cluster w).2.errorLogs = w.errorLogs ∧
    w.nextCtx ≤ (toServer x c cluster w).2.nextCtx := by
  have h := toRESTConfig_frame x c cluster w
  simp only [toServer]
  revert h
  generalize toRESTConfig x c cluster w = r
  intro h
  obtain ⟨h1, h2, h3, h4, h5, h6⟩ := h
  repeat' split
  all_goals simp_all [World.emit, World.errorLogs, List.filter_append]

theorem toServer_fresh (x : Collab) (c : Manager) (cluster : ClientCluster) (w : World) :
    ∀ s, (toServer x c cluster w).1.1 = some s →
      s.ctx = s.cancel ∧ w.nextCtx ≤ s.cancel ∧
        s.cancel < (toServer x c cluster w).2.nextCtx := by
  have hf := toRESTConfig_frame x c cluster w
  simp only [toServer]
  revert hf
  generalize toRESTConfig x c cluster w = r
  intro hf
  obtain ⟨h1, h2, h3, h4, h5, h6⟩ := hf
  repeat' split
  all_goals simp_all [World.emit]

theorem build_eq (x : Collab) (c : Manager) (cluster : ClientCluster) (w : World) :
    APIServer.build x c cluster w =
      match (toServer x c cluster w).1 with
      | (_, some err) => (none, (toServer x c cluster w).2.emit (Event.errorf cluster.ID err))
      | (none, none) => (none, (toServer x c cluster w).2)
      | (some server, none) => (some server, (toServer x c cluster w).2) := by
  unfold APIServer.build
  rcases toServer x c cluster w with ⟨⟨_ | s, _ | e⟩, w1⟩ <;> rfl

theorem build_frame (x : Collab) (c : Manager) (cluster : ClientCluster) (w : World) :
    (APIServer.build x c cluster w).2.servers = w.servers ∧
    (APIServer.build x c cluster w).2.cancels = w.cancels ∧
    (APIServer.build x c cluster w).2.goroutines = w.goroutines ∧
    (APIServer.build x c cluster w).2.now = w.now ∧
    w.nextCtx ≤ (APIServer.build x c cluster w).2.nextCtx := by
  have h := toServer_frame x c cluster w
  rw [build_eq]
  revert h
  rcases toServer x c cluster w with ⟨⟨_ | s, _ | e⟩, w1⟩ <;> simp [World.emit] <;> intros <;>
    simp_all

theorem build_fresh (x : Collab) (c : Manager) (cluster : ClientCluster) (w : World) :
    ∀ s, (APIServer.build x c cluster w).1 = some s →
      w.nextCtx ≤ s.cancel ∧ s.cancel < (APIServer.build x c cluster w).2.nextCtx := by
  have h := toServer_fresh x c cluster w
  rw [build_eq]
  revert h
  rcases toServer x c cluster w with ⟨⟨_ | s, _ | e⟩, w1⟩ <;> simp [World.emit]

theorem build_none_iff (x : Collab) (c : Manager) (cluster : ClientCluster) (w : World) :
    (APIServer.build x c cluster w).1 = none ↔
      ((toServer x c cluster w).1.1 = none ∨ (toServer x c cluster w).1.2 ≠ none) := by
  rw [build_eq]
  rcases toServer x c cluster w with ⟨⟨_ | s, _ | e⟩, w1⟩ <;> simp

theorem build_errorLogs (x : Collab) (c : Manager) (cluster : ClientCluster) (w : World) :
    (APIServer.build x c cluster w).2.errorLogs =
      w.errorLogs ++ (match (toServer x c cluster w).1.2 with
        | some err => [Event.errorf cluster.ID err]
        | none => []) := by
  have h := (toServer_frame x c cluster w).2.2.2.2.1
  rw [build_eq]
  revert h
  rcases toServer x c cluster w with ⟨⟨_ | s, _ | e⟩, w1⟩ <;> simp [errorLogs_emit]

theorem store_frame (cluster : ClientCluster) (server : record) (w : World) :
    (APIServer.store cluster server w).2.cancels = w.cancels ∧
    (APIServer.store cluster server w).2.nextCtx = w.nextCtx ∧
    (APIServer.store cluster server w).2.trace = w.trace ∧
    (APIServer.store cluster server w).2.now = w.now := by
  unfold APIServer.store SyncMap.LoadOrStore
  cases w.servers cluster.Uuid <;> simp

theorem store_miss (cluster : ClientCluster) (server : record) (w : World)
    (h : w.servers cluster.Uuid = none) :
    APIServer.store cluster server w =
      (server.handler, { w with
        servers := Function.update w.servers cluster.Uuid (some server),
        goroutines := w.goroutines ++
          [{ key := cluster.Uuid, obj := server, pc := 0, clock := w.now }] }) := by
  simp [APIServer.store, SyncMap.LoadOrStore, h]

theorem store_hit (cluster : ClientCluster) (server obj : record) (w : World)
    (h : w.servers cluster.Uuid = some obj) :
    APIServer.store cluster server w = (obj.handler, w) := by
  simp [APIServer.store, SyncMap.LoadOrStore, h]

/-! ## Sequential claims -/

/-- C1: on the hit path `APIServer` returns the handler of the stored record and
leaves the whole world as it was: the trace gains no call to the lister, the
libraries or the builder, no goroutine is added and `servers` is unchanged,
whatever the collaborators would have answered. -/
theorem APIServer_hit (x : Collab) (c : Manager) (cluster : ClientCluster) (w : World)
    (obj : record) (h : w.servers.Load cluster.Uuid = some obj) :
    (APIServer x c cluster w).1 = obj.handler ∧
    (APIServer x c cluster w).2.trace = w.trace ∧
    (APIServer x c cluster w).2.goroutines = w.goroutines ∧
    (APIServer x c cluster w).2.servers = w.servers ∧
    (APIServer x c cluster w).2 = w := by
  simp [APIServer, h]

theorem APIServer_hit_witness :
    warmWorld.servers.Load demoCluster.Uuid = some { handler := some 100, ctx := 0, cancel := 0 } ∧
    (APIServer startFails emptyManager demoCluster warmWorld).1 = some 100 ∧
    (APIServer startFails emptyManager demoCluster warmWorld).2.trace = warmWorld.trace :=
  ⟨rfl, (APIServer_hit startFails emptyManager demoCluster warmWorld _ rfl).1,
    (APIServer_hit startFails emptyManager demoCluster warmWorld _ rfl).2.1⟩

theorem toServer_of_toRESTConfig_fail (x : Collab) (c : Manager) (cluster : ClientCluster)
    (w : World)
    (h : (toRESTConfig x c cluster w).1.1 = none ∨ (toRESTConfig x c cluster w).1.2 ≠ none) :
    (toServer x c cluster w).1.1 = none := by
  unfold toServer
  revert h
  rcases toRESTConfig x c cluster w with ⟨⟨_ | cfg, _ | e⟩, w1⟩ <;> simp

theorem toRESTConfig_not_found (x : Collab) (c : Manager) (cluster : ClientCluster) (w : World)
    (h : c.ClusterLister cluster.ID = (none, none)) :
    (toRESTConfig x c cluster w).1 = (none, none) := by
  simp [toRESTConfig, h]

theorem APIServer_miss (x : Collab) (c : Manager) (cluster : ClientCluster) (w : World)
    (h : w.servers cluster.Uuid = none) :
    APIServer x c cluster w =
      match APIServer.build x c cluster w with
      | (none, w1) => (none, w1)
      | (some server, w1) => APIServer.store cluster server w1 := by
  simp [APIServer, SyncMap.Load, h]

theorem APIServer_miss_fail (x : Collab) (c : Manager) (cluster : ClientCluster) (w : World)
    (h : w.servers cluster.Uuid = none)
    (hf : (toServer x c cluster w).1.1 = none ∨ (toServer x c cluster w).1.2 ≠ none) :
    APIServer x c cluster w = (none, (APIServer.build x c cluster w).2) := by
  rw [APIServer_miss x c cluster w h]
  have hb := (build_none_iff x c cluster w).2 hf
  revert hb
  rcases APIServer.build x c cluster w with ⟨_ | s, w1⟩ <;> simp

/-- C2: when the key is absent from `servers` and the lister finds no cluster,
or `toRESTConfig` answers `(nil, nil)`, or it answers an error, or `toServer`
answers an error (with or without a record), `APIServer` returns nil, the map
after the call is the map before it and no goroutine has been started. -/
theorem APIServer_failure_absent (x : Collab) (c : Manager) (cluster : ClientCluster)
    (w : World) (hmiss : w.servers.Load cluster.Uuid = none)
    (hfail : c.ClusterLister cluster.ID = (none, none) ∨
      (toRESTConfig x c cluster w).1 = (none, none) ∨
      (toRESTConfig x c cluster w).1.2 ≠ none ∨
      (toServer x c cluster w).1.2 ≠ none) :
    (APIServer x c cluster w).1 = none ∧
    (APIServer x c cluster w).2.servers = w.servers ∧
    (APIServer x c cluster w).2.goroutines = w.goroutines := by
  have hf : (toServer x c cluster w).1.1 = none ∨ (toServer x c cluster w).1.2 ≠ none := by
    rcases hfail with h | h | h | h
    · exact Or.inl (toServer_of_toRESTConfig_fail x c cluster w
        (Or.inl (by rw [toRESTConfig_not_found x c cluster w h])))
    · exact Or.inl (toServer_of_toRESTConfig_fail x c cluster w (Or.inl (by rw [h])))
    · exact Or.inl (toServer_of_toRESTConfig_fail x c cluster w (Or.inr h))
    · exact Or.inr h
  rw [APIServer_miss_fail x c cluster w hmiss hf]
  have hb := build_frame x c cluster w
  exact ⟨rfl, hb.1, hb.2.2.1⟩

theorem APIServer_failure_absent_witness :
    (toServer startFails readyManager demoCluster World.empty).1 =
      (some { handler := some 100, ctx := 0, cancel := 0 }, some "start failed") ∧
    (APIServer startFails readyManager demoCluster World.empty).1 = none ∧
    (APIServer startFails readyManager demoCluster World.empty).2.servers = World.empty.servers ∧
    (APIServer startFails readyManager demoCluster World.empty).2.goroutines = [] :=
  ⟨rfl, APIServer_failure_absent startFails readyManager demoCluster World.empty rfl
    (Or.inr (Or.inr (Or.inr (by decide))))⟩

/-- C4: the tail of `APIServer` after a successful build, run against whatever
the map holds at that moment.  When `LoadOrStore` reports `loaded = false` the
built record is now stored, exactly one goroutine is appended, bound to the key
and to that record and at its first statement, and the handler just built is
returned; when it reports `loaded = true` the world is unchanged (no goroutine,
the stored record stays) and the handler of the stored record is returned. -/
theorem store_spawns_iff_stored (cluster : ClientCluster) (server : record) (w : World) :
    ((w.servers.LoadOrStore cluster.Uuid server).1.2 = false →
      (APIServer.store cluster server w).2.goroutines = w.goroutines ++
        [{ key := cluster.Uuid, obj := server, pc := 0, clock := w.now }] ∧
      (APIServer.store cluster server w).2.servers cluster.Uuid = some server ∧
      (APIServer.store cluster server w).1 = server.handler) ∧
    ((w.servers.LoadOrStore cluster.Uuid server).1.2 = true →
      (APIServer.store cluster server w).2.goroutines = w.goroutines ∧
      (APIServer.store cluster server w).2.servers = w.servers ∧
      ∃ stored, w.servers cluster.Uuid = some stored ∧
        (APIServer.store cluster server w).2.servers cluster.Uuid = some stored ∧
        (APIServer.store cluster server w).1 = stored.handler) ∧
    ((APIServer.store cluster server w).2.goroutines ≠ w.goroutines ↔
      (w.servers.LoadOrStore cluster.Uuid server).1.2 = false) := by
  rcases h : w.servers cluster.Uuid with _ | stored
  · simp [store_miss cluster server w h, SyncMap.LoadOrStore, h]
  · simp [store_hit cluster server stored w h, SyncMap.LoadOrStore, h]

theorem store_spawns_iff_stored_witness :
    (APIServer.store demoCluster { handler := some 5, ctx := 9, cancel := 9 }
        World.empty).2.goroutines =
      [{ key := "uuid-1", obj := { handler := some 5, ctx := 9, cancel := 9 }, pc := 0,
         clock := 0 }] ∧
    (APIServer.store demoCluster { handler := some 5, ctx := 9, cancel := 9 }
        warmWorld).2.goroutines = warmWorld.goroutines ∧
    (APIServer.store demoCluster { handler := some 5, ctx := 9, cancel := 9 }
        warmWorld).1 = some 100 :=
  ⟨((store_spawns_iff_stored demoCluster _ World.empty).1 rfl).1,
    ((store_spawns_iff_stored demoCluster _ warmWorld).2.1 rfl).1,
    by
      obtain ⟨stored, h1, _, h3⟩ := ((store_spawns_iff_stored demoCluster
        { handler := some 5, ctx := 9, cancel := 9 } warmWorld).2.1 rfl).2.2
      rw [h3]
      have h4 : warmWorld.servers demoCluster.Uuid =
          some { handler := some 100, ctx := 0, cancel := 0 } := rfl
      rw [h4] at h1
      cases h1
      rfl⟩

theorem toServer_after_context (x : Collab) (c : Manager) (cluster : ClientCluster) (w : World)
    (cfg : RestConfig) (cc : ClusterContext)
    (hcfg : (toRESTConfig x c cluster w).1 = (some cfg, none))
    (hcc : x.newClusterContext c.ManagementConfig cfg cluster.ID = Except.ok cc) :
    (toServer x c cluster w).2.nextCtx = w.nextCtx + 1 ∧
    Event.withCancel w.nextCtx ∈ (toServer x c cluster w).2.trace ∧
    (toServer x c cluster w).1.2 =
      (match (x.clusterapiNew w.nextCtx cc).2 with
        | some err => some err
        | none => x.start cc w.nextCtx) := by
  have hf := (toRESTConfig_frame x c cluster w).2.1
  simp only [toServer]
  revert hf hcfg
  rcases toRESTConfig x c cluster w with ⟨⟨_ | cfg1, _ | e⟩, w1⟩ <;> simp
  intro h1 h2
  subst h1
  simp only [World.emit, hcc, h2]
  rcases x.clusterapiNew w.nextCtx cc with ⟨hd, _ | e⟩
  · rcases x.start cc w.nextCtx with _ | e <;> simp
  · simp

/-- C6 as the code has it: when `clusterapi.New` or `clusterContext.Start` fails,
a context has been created (`context.WithCancel` was called and the counter of
contexts moved by one), `APIServer` returns nil, stores nothing and starts no
goroutine, and the list of invoked cancel functions is the one before the call:
the call does not invoke the cancel function of the context it created. -/
theorem APIServer_builder_failure (x : Collab) (c : Manager) (cluster : ClientCluster)
    (w : World) (cfg : RestConfig) (cc : ClusterContext)
    (hmiss : w.servers.Load cluster.Uuid = none)
    (hcfg : (toRESTConfig x c cluster w).1 = (some cfg, none))
    (hcc : x.newClusterContext c.ManagementConfig cfg cluster.ID = Except.ok cc)
    (hfail : (x.clusterapiNew w.nextCtx cc).2 ≠ none ∨ x.start cc w.nextCtx ≠ none) :
    (APIServer x c cluster w).1 = none ∧
    (APIServer x c cluster w).2.servers = w.servers ∧
    (APIServer x c cluster w).2.goroutines = w.goroutines ∧
    Event.withCancel w.nextCtx ∈ (APIServer x c cluster w).2.trace ∧
    (APIServer x c cluster w).2.nextCtx = w.nextCtx + 1 ∧
    (APIServer x c cluster w).2.cancels = w.cancels := by
  obtain ⟨h1, h2, h3⟩ := toServer_after_context x c cluster w cfg cc hcfg hcc
  have herr : (toServer x c cluster w).1.2 ≠ none := by
    rw [h3]
    rcases hfail with h | h
    · revert h
      rcases (x.clusterapiNew w.nextCtx cc).2 with _ | e <;> simp
    · rcases (x.clusterapiNew w.nextCtx cc).2 with _ | e
      · exact h
      · simp
  rw [APIServer_miss_fail x c cluster w hmiss (Or.inr herr)]
  have hb := build_frame x c cluster w
  refine ⟨rfl, hb.1, hb.2.2.1, ?_, ?_, hb.2.1⟩
  · rw [build_eq]
    revert herr h2
    rcases toServer x c cluster w with ⟨⟨_ | s, _ | e⟩, w1⟩ <;> simp [World.emit]
  · rw [build_eq]
    revert herr h1
    rcases toServer x c cluster w with ⟨⟨_ | s, _ | e⟩, w1⟩ <;> simp [World.emit]

theorem APIServer_builder_failure_witness :
    (APIServer newFails readyManager demoCluster World.empty).1 = none ∧
    (APIServer newFails readyManager demoCluster World.empty).2.nextCtx = 1 ∧
    (APIServer newFails readyManager demoCluster World.empty).2.cancels = [] :=
  have h := APIServer_builder_failure newFails readyManager demoCluster World.empty
    { Host := "10.0.0.1:6443", Prefix := "/k8s", BearerToken := "token", CAData := [67, 65] } 7
    rfl rfl rfl (Or.inl (by decide))
  ⟨h.1, h.2.2.2.2.1, h.2.2.2.2.2⟩

/-- C6 fails as stated: with `clusterContext.Start` failing, and with
`clusterapi.New` failing, context 0 is created, `APIServer` returns nil, and no
cancel function has been invoked when it returns. -/
theorem builder_failure_context_not_cancelled :
    ((toServer startFails readyManager demoCluster World.empty).1.2 = some "start failed" ∧
      Event.withCancel 0 ∈ (APIServer startFails readyManager demoCluster World.empty).2.trace ∧
      (APIServer startFails readyManager demoCluster World.empty).1 = none ∧
      (APIServer startFails readyManager demoCluster World.empty).2.cancelled 0 = false) ∧
    ((toServer newFails readyManager demoCluster World.empty).1.2 = some "new failed" ∧
      Event.withCancel 0 ∈ (APIServer newFails readyManager demoCluster World.empty).2.trace ∧
      (APIServer newFails readyManager demoCluster World.empty).1 = none ∧
      (APIServer newFails readyManager demoCluster World.empty).2.cancelled 0 = false) := by
  refine ⟨⟨rfl, ?_, rfl, rfl⟩, ⟨rfl, ?_, rfl, rfl⟩⟩ <;> decide

theorem toServer_error_iff (x : Collab) (c : Manager) (cluster : ClientCluster) (w : World)
    (e : Error) :
    (toServer x c cluster w).1.2 = some e ↔
      ((toRESTConfig x c cluster w).1.2 = some e ∨
        ∃ cfg, (toRESTConfig x c cluster w).1 = (some cfg, none) ∧
          (x.newClusterContext c.ManagementConfig cfg cluster.ID = Except.error e ∨
            ∃ cc, x.newClusterContext c.ManagementConfig cfg cluster.ID = Except.ok cc ∧
              ((x.clusterapiNew w.nextCtx cc).2 = some e ∨
                ((x.clusterapiNew w.nextCtx cc).2 = none ∧ x.start cc w.nextCtx = some e)))) := by
  have hf := (toRESTConfig_frame x c cluster w).2.1
  simp only [toServer]
  revert hf
  rcases toRESTConfig x c cluster w with ⟨⟨_ | cfg1, _ | e1⟩, w1⟩ <;> simp
  intro h1
  simp only [World.emit, h1]
  rcases x.newClusterContext c.ManagementConfig cfg1 cluster.ID with e2 | cc <;> simp
  rcases x.clusterapiNew w.nextCtx cc with ⟨hd, _ | e3⟩ <;> simp
  rcases x.start cc w.nextCtx with _ | e4 <;> simp

theorem toRESTConfig_error_iff (x : Collab) (c : Manager) (cluster : ClientCluster) (w : World)
    (e : Error) :
    (toRESTConfig x c cluster w).1.2 = some e ↔
      ((c.ClusterLister cluster.ID).2 = some e ∨
        ∃ v, c.ClusterLister cluster.ID = (some v, none) ∧ v.Internal = false ∧
          v.APIEndpoint ≠ "" ∧ v.CACert ≠ "" ∧ v.ServiceAccountToken ≠ "" ∧
          (x.urlParse v.APIEndpoint = Except.error e ∨
            ∃ u, x.urlParse v.APIEndpoint = Except.ok u ∧
              x.decodeString v.CACert = Except.error e)) := by
  simp only [toRESTConfig]
  rcases c.ClusterLister cluster.ID with ⟨_ | v, _ | e1⟩ <;> simp
  by_cases hi : v.Internal = true
  · simp [hi]
  · simp only [hi]
    by_cases hr : v.APIEndpoint = "" ∨ v.CACert = "" ∨ v.ServiceAccountToken = ""
    · simp only [hr]
      simp
      intro h1 h2 h3
      rcases hr with h | h | h
      · exact absurd h h1
      · exact absurd h h2
      · exact absurd h h3
    · simp only [hr]
      push_neg at hr
      rcases x.urlParse v.APIEndpoint with e2 | u <;> simp [hr]
      rcases x.decodeString v.CACert with e3 | bs <;> simp

theorem APIServer_errorLogs (x : Collab) (c : Manager) (cluster : ClientCluster) (w : World) :
    (APIServer x c cluster w).2.errorLogs =
      w.errorLogs ++
        (match w.servers.Load cluster.Uuid, (toServer x c cluster w).1.2 with
          | none, some e => [Event.errorf cluster.ID e]
          | _, _ => []) := by
  rcases h : w.servers cluster.Uuid with _ | obj
  · have hb := build_errorLogs x c cluster w
    rw [APIServer_miss x c cluster w h]
    simp only [SyncMap.Load, h]
    revert hb
    rcases APIServer.build x c cluster w with ⟨_ | s, w1⟩
    · simp only
      intro hb
      rw [hb]
      rcases (toServer x c cluster w).1.2 with _ | e <;> rfl
    · simp only
      intro hb
      have ht := (store_frame cluster s w1).2.2.1
      have : (APIServer.store cluster s w1).2.errorLogs = w1.errorLogs := by
        simp only [World.errorLogs, ht]
      rw [this, hb]
      rcases (toServer x c cluster w).1.2 with _ | e <;> rfl
  · simp [APIServer, SyncMap.Load, h]

/-- C9: (a) for a found, non-internal cluster with an empty endpoint, certificate
or token, `toRESTConfig` answers `(nil, nil)` having called only the lister (no
`url.Parse`, no base64 decoding), and `APIServer` on a miss returns nil with the
lister call as its only effect and no error line; (b) the error lines of
`APIServer` grow by exactly one line when the key is absent and `toServer`
answered a non-nil error, and not at all otherwise; (c) `toServer` answers the
error `e` exactly when the lister failed with `e`, or `url.Parse` or the base64
decoding of CACert failed with `e` on a ready cluster, or `NewClusterContext`,
`clusterapi.New` or `Start` failed with `e`. -/
theorem APIServer_logs_iff_error (x : Collab) (c : Manager) (cluster : ClientCluster)
    (w : World) :
    (∀ v, c.ClusterLister cluster.ID = (some v, none) → v.Internal = false →
      (v.APIEndpoint = "" ∨ v.CACert = "" ∨ v.ServiceAccountToken = "") →
      toRESTConfig x c cluster w = ((none, none), w.emit (Event.listerGet cluster.ID)) ∧
      (w.servers.Load cluster.Uuid = none →
        (APIServer x c cluster w).1 = none ∧
        (APIServer x c cluster w).2.trace = w.trace ++ [Event.listerGet cluster.ID] ∧
        (APIServer x c cluster w).2.errorLogs = w.errorLogs)) ∧
    ((APIServer x c cluster w).2.errorLogs =
      w.errorLogs ++
        (match w.servers.Load cluster.Uuid, (toServer x c cluster w).1.2 with
          | none, some e => [Event.errorf cluster.ID e]
          | _, _ => [])) ∧
    (∀ e, (toServer x c cluster w).1.2 = some e ↔
      (((c.ClusterLister cluster.ID).2 = some e ∨
        ∃ v, c.ClusterLister cluster.ID = (some v, none) ∧ v.Internal = false ∧
          v.APIEndpoint ≠ "" ∧ v.CACert ≠ "" ∧ v.ServiceAccountToken ≠ "" ∧
          (x.urlParse v.APIEndpoint = Except.error e ∨
            ∃ u, x.urlParse v.APIEndpoint = Except.ok u ∧
              x.decodeString v.CACert = Except.error e)) ∨
        ∃ cfg, (toRESTConfig x c cluster w).1 = (some cfg, none) ∧
          (x.newClusterContext c.ManagementConfig cfg cluster.ID = Except.error e ∨
            ∃ cc, x.newClusterContext c.ManagementConfig cfg cluster.ID = Except.ok cc ∧
              ((x.clusterapiNew w.nextCtx cc).2 = some e ∨
                ((x.clusterapiNew w.nextCtx cc).2 = none ∧ x.start cc w.nextCtx = some e))))) := by
  refine ⟨?_, APIServer_errorLogs x c cluster w, ?_⟩
  · intro v hv hi hr
    have h1 : toRESTConfig x c cluster w = ((none, none), w.emit (Event.listerGet cluster.ID)) := by
      simp [toRESTConfig, hv, hi, hr]
    refine ⟨h1, ?_⟩
    intro hmiss
    have h2 : toServer x c cluster w = ((none, none), w.emit (Event.listerGet cluster.ID)) := by
      simp [toServer, h1]
    have h3 : APIServer x c cluster w = (none, w.emit (Event.listerGet cluster.ID)) := by
      rw [APIServer_miss x c cluster w hmiss, build_eq, h2]
    rw [h3]
    exact ⟨rfl, rfl, by simp [errorLogs_emit]⟩
  · intro e
    rw [toServer_error_iff, toRESTConfig_error_iff]

theorem APIServer_logs_iff_error_witness :
    toRESTConfig okCollab pendingManager demoCluster World.empty =
      ((none, none), World.empty.emit (Event.listerGet demoCluster.ID)) ∧
    (APIServer okCollab pendingManager demoCluster World.empty).1 = none ∧
    (APIServer okCollab pendingManager demoCluster World.empty).2.trace = [Event.listerGet "c-1"] ∧
    (APIServer okCollab pendingManager demoCluster World.empty).2.errorLogs = [] :=
  have h := (APIServer_logs_iff_error okCollab pendingManager demoCluster World.empty).1
    pendingCluster rfl rfl (Or.inr (Or.inl rfl))
  ⟨h.1, (h.2 rfl).1, (h.2 rfl).2.1, (h.2 rfl).2.2⟩

/-! ## The invariant is preserved by every step -/

theorem next_cases {g : Goroutine} {ins : Instr} (h : g.next = some ins) :
    (g.pc = 0 ∧ ins = Instr.sleep (10 * Minute)) ∨ (g.pc = 1 ∧ ins = Instr.delete g.key) ∨
    (g.pc = 2 ∧ ins = Instr.sleep Minute) ∨ (g.pc = 3 ∧ ins = Instr.cancel g.obj) := by
  unfold Goroutine.next evictionScheduler at h
  rcases hp : g.pc with _ | _ | _ | _ | n <;> rw [hp] at h <;> simp at h <;> simp [h]

theorem getElem?_set_built {l : List Call} {i k : Nat} {a : Call} {cl : ClientCluster}
    {r : record} (ha : ∀ cm q, a ≠ Call.built cm q)
    (h : (l.set i a)[k]? = some (Call.built cl r)) :
    l[k]? = some (Call.built cl r) ∧ k ≠ i := by
  rw [List.getElem?_set] at h
  by_cases hik : i = k
  · rw [if_pos hik] at h
    split at h
    · exact absurd (Option.some.inj h) (ha cl r)
    · cases h
  · rw [if_neg hik] at h
    exact ⟨h, fun e => hik e.symm⟩

theorem Inv_empty : Inv System.empty := by
  refine ⟨⟨?_, ?_, ?_, ?_, ?_, ?_, ?_⟩, ⟨?_, ?_, ?_⟩⟩ <;>
    simp [System.empty, World.empty]

theorem getElem?_append_entry {l : List Call} {k : Nat} {cm cl : ClientCluster} {r : record}
    (h : (l ++ [Call.entry cm])[k]? = some (Call.built cl r)) :
    l[k]? = some (Call.built cl r) := by
  rw [List.getElem?_append] at h
  split at h
  · exact h
  · rcases hk : k - l.length with _ | n <;> rw [hk] at h <;> simp at h

theorem WorldInv_congr {w v : World} (h : WorldInv w) (hs : v.servers = w.servers)
    (hg : v.goroutines = w.goroutines) (hc : v.cancels = w.cancels)
    (hn : w.nextCtx ≤ v.nextCtx) : WorldInv v := by
  refine ⟨?_, ?_, ?_, ?_, ?_, ?_, ?_⟩
  · rw [hs, hg]; exact h.stored_of_pending
  · rw [hs, hg]; exact h.pending_of_stored
  · rw [hg]; exact h.ctx_inj
  · rw [hg]; exact fun j g hj => lt_of_lt_of_le (h.ctx_lt j g hj) hn
  · rw [hg, hc]; exact h.cancels_finished
  · rw [hg, hc]; exact h.finished_cancels
  · rw [hc]; exact h.cancels_nodup

theorem CallsInv_congr {w v : World} {calls : List Call} (h : CallsInv w calls)
    (hg : v.goroutines = w.goroutines) (hn : w.nextCtx ≤ v.nextCtx) : CallsInv v calls := by
  refine ⟨?_, ?_, ?_⟩
  · exact fun i cl r hi => lt_of_lt_of_le (h.built_lt i cl r hi) hn
  · rw [hg]; exact h.built_ne
  · exact h.built_inj

theorem CallsInv_set {w : World} {calls : List Call} (h : CallsInv w calls) (i : Nat) (a : Call)
    (ha : ∀ cm q, a ≠ Call.built cm q) : CallsInv w (calls.set i a) := by
  refine ⟨?_, ?_, ?_⟩
  · intro k cl r hk
    exact h.built_lt k cl r (getElem?_set_built ha hk).1
  · intro k cl r j g hk hj
    exact h.built_ne k cl r j g (getElem?_set_built ha hk).1 hj
  · intro k m cl cm r q hk hm e
    exact h.built_inj k m cl cm r q (getElem?_set_built ha hk).1 (getElem?_set_built ha hm).1 e

theorem CallsInv_append {w : World} {calls : List Call} (h : CallsInv w calls)
    (cm : ClientCluster) : CallsInv w (calls ++ [Call.entry cm]) := by
  refine ⟨?_, ?_, ?_⟩
  · intro k cl r hk
    exact h.built_lt k cl r (getElem?_append_entry hk)
  · intro k cl r j g hk hj
    exact h.built_ne k cl r j g (getElem?_append_entry hk) hj
  · intro k m cl cn r q hk hm e
    exact h.built_inj k m cl cn r q (getElem?_append_entry hk) (getElem?_append_entry hm) e

theorem CallsInv_build {w v : World} {calls : List Call} (h : CallsInv w calls)
    (hw : WorldInv w) (hg : v.goroutines = w.goroutines) (i : Nat) (cl : ClientCluster)
    (r : record) (h1 : w.nextCtx ≤ r.cancel) (h2 : r.cancel < v.nextCtx) :
    CallsInv v (calls.set i (Call.built cl r)) := by
  have hn : w.nextCtx ≤ v.nextCtx := by omega
  have key : ∀ (k : Nat) (cm : ClientCluster) (q : record),
      (calls.set i (Call.built cl r))[k]? = some (Call.built cm q) →
      (k = i ∧ q = r) ∨ (k ≠ i ∧ calls[k]? = some (Call.built cm q)) := by
    intro k cm q hk
    rw [List.getElem?_set] at hk
    by_cases hik : i = k
    · rw [if_pos hik] at hk
      split at hk
      · simp at hk
        exact Or.inl ⟨hik.symm, hk.2.symm⟩
      · cases hk
    · rw [if_neg hik] at hk
      exact Or.inr ⟨fun e => hik e.symm, hk⟩
  refine ⟨?_, ?_, ?_⟩
  · intro k cm q hk
    rcases key k cm q hk with ⟨_, e⟩ | ⟨_, e⟩
    · rw [e]; exact h2
    · exact lt_of_lt_of_le (h.built_lt k cm q e) hn
  · intro k cm q j g hk hj
    rw [hg] at hj
    rcases key k cm q hk with ⟨_, e⟩ | ⟨_, e⟩
    · rw [e]
      have := hw.ctx_lt j g hj
      omega
    · exact h.built_ne k cm q j g e hj
  · intro k m cm cn q p hk hm e
    rcases key k cm q hk with ⟨e1, e2⟩ | ⟨e1, e2⟩ <;>
      rcases key m cn p hm with ⟨e3, e4⟩ | ⟨e3, e4⟩
    · rw [e1, e3]
    · have := h.built_lt m cn p e4
      rw [e2] at e
      omega
    · have := h.built_lt k cm q e2
      rw [e4] at e
      omega
    · exact h.built_inj k m cm cn q p e2 e4 e

theorem getElem?_append_one {α : Type} (l : List α) (a b : α) (j : Nat) :
    (l ++ [a])[j]? = some b ↔ l[j]? = some b ∨ (j = l.length ∧ b = a) := by
  rw [List.getElem?_append]
  split
  · rename_i hlt
    constructor
    · exact fun h => Or.inl h
    · rintro (h | ⟨h, _⟩)
      · exact h
      · omega
  · rename_i hge
    have hnone : l[j]? = none := List.getElem?_eq_none (by omega)
    rw [hnone]
    rcases hk : j - l.length with _ | n
    · have : j = l.length := by omega
      simp [this, eq_comm]
    · have : j ≠ l.length := by omega
      simp [this]

theorem getElem?_set_iff {α : Type} (l : List α) (a b : α) (j k : Nat) :
    (l.set j a)[k]? = some b ↔ (k = j ∧ j < l.length ∧ b = a) ∨ (k ≠ j ∧ l[k]? = some b) := by
  rw [List.getElem?_set]
  by_cases hjk : j = k
  · rw [if_pos hjk]
    by_cases hlt : j < l.length
    · rw [if_pos hlt]
      simp [hjk.symm, hlt, eq_comm]
    · rw [if_neg hlt]
      simp [hjk.symm, hlt]
  · rw [if_neg hjk]
    have : k ≠ j := fun e => hjk e.symm
    simp [this]

theorem WorldInv_store {w : World} (h : WorldInv w) (k : String) (r : record)
    (hk : w.servers k = none) (hlt : r.cancel < w.nextCtx)
    (hne : ∀ (j : Nat) (g : Goroutine), w.goroutines[j]? = some g → g.obj.cancel ≠ r.cancel) :
    WorldInv { w with
      servers := Function.update w.servers k (some r),
      goroutines := w.goroutines ++ [{ key := k, obj := r, pc := 0, clock := w.now }] } := by
  refine ⟨?_, ?_, ?_, ?_, ?_, ?_, ?_⟩
  · intro j g hj hp
    simp only at hj ⊢
    rcases (getElem?_append_one _ _ _ _).1 hj with hj | ⟨_, hg⟩
    · have hs := h.stored_of_pending j g hj hp
      have : g.key ≠ k := by
        intro e
        rw [e, hk] at hs
        cases hs
      rw [Function.update_noteq this]
      exact hs
    · subst hg
      simp
  · intro q p hq
    simp only at hq ⊢
    by_cases e : q = k
    · subst e
      rw [Function.update_same] at hq
      cases hq
      exact ⟨w.goroutines.length, _, (getElem?_append_one _ _ _ _).2 (Or.inr ⟨rfl, rfl⟩),
        rfl, rfl, Nat.zero_le _⟩
    · rw [Function.update_noteq e] at hq
      obtain ⟨j, g, hj, h1, h2, h3⟩ := h.pending_of_stored q p hq
      exact ⟨j, g, (getElem?_append_one _ _ _ _).2 (Or.inl hj), h1, h2, h3⟩
  · intro i j g g2 hi hj e
    simp only at hi hj
    rcases (getElem?_append_one _ _ _ _).1 hi with hi | ⟨hi, hg⟩ <;>
      rcases (getElem?_append_one _ _ _ _).1 hj with hj | ⟨hj, hg2⟩
    · exact h.ctx_inj i j g g2 hi hj e
    · subst hg2
      exact absurd e (hne i g hi)
    · subst hg
      exact absurd e.symm (hne j g2 hj)
    · rw [hi, hj]
  · intro j g hj
    simp only at hj ⊢
    rcases (getElem?_append_one _ _ _ _).1 hj with hj | ⟨_, hg⟩
    · exact h.ctx_lt j g hj
    · subst hg
      exact hlt
  · intro c hc
    obtain ⟨j, g, hj, h1, h2⟩ := h.cancels_finished c hc
    exact ⟨j, g, (getElem?_append_one _ _ _ _).2 (Or.inl hj), h1, h2⟩
  · intro j g hj hp
    simp only at hj ⊢
    rcases (getElem?_append_one _ _ _ _).1 hj with hj | ⟨_, hg⟩
    · exact h.finished_cancels j g hj hp
    · subst hg
      simp at hp
  · exact h.cancels_nodup

theorem set_back {w : World} {j : Nat} {g a : Goroutine} (hj : w.goroutines[j]? = some g)
    (hk : a.key = g.key) (ho : a.obj = g.obj) {k : Nat} {b : Goroutine}
    (hb : (w.goroutines.set j a)[k]? = some b) :
    ∃ b0, w.goroutines[k]? = some b0 ∧ b0.key = b.key ∧ b0.obj = b.obj ∧
      ((k = j ∧ b0 = g ∧ b = a) ∨ (k ≠ j ∧ b0 = b)) := by
  rcases (getElem?_set_iff _ _ _ _ _).1 hb with ⟨e1, _, e2⟩ | ⟨e1, e2⟩
  · subst e1 e2
    exact ⟨g, hj, hk.symm, ho.symm, Or.inl ⟨rfl, rfl, rfl⟩⟩
  · exact ⟨b, e2, rfl, rfl, Or.inr ⟨e1, rfl⟩⟩

theorem set_forth {w : World} {j : Nat} {g : Goroutine} (a : Goroutine)
    (hj : w.goroutines[j]? = some g) {k : Nat} {b0 : Goroutine}
    (hb : w.goroutines[k]? = some b0) :
    (k = j ∧ b0 = g ∧ (w.goroutines.set j a)[k]? = some a) ∨
      (k ≠ j ∧ (w.goroutines.set j a)[k]? = some b0) := by
  have hlt : j < w.goroutines.length := by
    rcases Nat.lt_or_ge j w.goroutines.length with h | h
    · exact h
    · rw [List.getElem?_eq_none h] at hj
      cases hj
  by_cases e : k = j
  · subst e
    rw [hj] at hb
    cases hb
    exact Or.inl ⟨rfl, rfl, (getElem?_set_iff _ _ _ _ _).2 (Or.inl ⟨rfl, hlt, rfl⟩)⟩
  · exact Or.inr ⟨e, (getElem?_set_iff _ _ _ _ _).2 (Or.inr ⟨e, hb⟩)⟩

theorem WorldInv_sleep {w : World} (h : WorldInv w) (j : Nat) (g a : Goroutine)
    (hj : w.goroutines[j]? = some g) (hk : a.key = g.key) (ho : a.obj = g.obj)
    (hp : a.pc = g.pc + 1) (h1 : g.pc ≠ 1) (h3 : g.pc ≠ 3) :
    WorldInv { w with goroutines := w.goroutines.set j a } := by
  refine ⟨?_, ?_, ?_, ?_, ?_, ?_, ?_⟩
  · intro k b hb hbp
    obtain ⟨b0, hb0, e1, e2, hc⟩ := set_back hj hk ho hb
    rw [← e1, ← e2]
    refine h.stored_of_pending k b0 hb0 ?_
    rcases hc with ⟨_, e3, e4⟩ | ⟨_, e3⟩
    · subst e3 e4; omega
    · subst e3; exact hbp
  · intro q r hq
    obtain ⟨k, b0, hb0, e1, e2, e3⟩ := h.pending_of_stored q r hq
    rcases set_forth a hj hb0 with ⟨_, e4, e5⟩ | ⟨_, e5⟩
    · subst e4
      exact ⟨k, a, e5, hk.trans e1, ho.trans e2, by omega⟩
    · exact ⟨k, b0, e5, e1, e2, e3⟩
  · intro i k b c hb hc e
    obtain ⟨b0, hb0, _, e2, _⟩ := set_back hj hk ho hb
    obtain ⟨c0, hc0, _, e4, _⟩ := set_back hj hk ho hc
    exact h.ctx_inj i k b0 c0 hb0 hc0 (by rw [e2, e4]; exact e)
  · intro k b hb
    obtain ⟨b0, hb0, _, e2, _⟩ := set_back hj hk ho hb
    rw [← e2]
    exact h.ctx_lt k b0 hb0
  · intro c hc
    obtain ⟨k, b0, hb0, e1, e2⟩ := h.cancels_finished c hc
    rcases set_forth a hj hb0 with ⟨_, e4, e5⟩ | ⟨_, e5⟩
    · subst e4
      exact ⟨k, a, e5, by rw [ho]; exact e1, by omega⟩
    · exact ⟨k, b0, e5, e1, e2⟩
  · intro k b hb hbp
    obtain ⟨b0, hb0, _, e2, hc⟩ := set_back hj hk ho hb
    rw [← e2]
    refine h.finished_cancels k b0 hb0 ?_
    rcases hc with ⟨_, e3, e4⟩ | ⟨_, e3⟩
    · subst e3 e4; omega
    · subst e3; exact hbp
  · exact h.cancels_nodup

theorem WorldInv_delete {w : World} (h : WorldInv w) (j : Nat) (g a : Goroutine)
    (hj : w.goroutines[j]? = some g) (hk : a.key = g.key) (ho : a.obj = g.obj)
    (hp : a.pc = g.pc + 1) (h1 : g.pc = 1) :
    WorldInv { w with servers := w.servers.Delete g.key,
                      goroutines := w.goroutines.set j a } := by
  have own : ∀ (k : Nat) (b : Goroutine), w.goroutines[k]? = some b → b.pc ≤ 1 →
      b.key = g.key → k = j := by
    intro k b hb hbp e
    have s1 := h.stored_of_pending k b hb hbp
    have s2 := h.stored_of_pending j g hj (by omega)
    rw [e, s2] at s1
    exact h.ctx_inj k j b g hb hj (by rw [Option.some.inj s1])
  refine ⟨?_, ?_, ?_, ?_, ?_, ?_, ?_⟩
  · intro k b hb hbp
    obtain ⟨b0, hb0, e1, e2, hc⟩ := set_back hj hk ho hb
    rcases hc with ⟨_, e3, e4⟩ | ⟨hkj, e3⟩
    · subst e3 e4; omega
    · subst e3
      have hne : b0.key ≠ g.key := fun e => hkj (own k b0 hb0 hbp e)
      simp only [SyncMap.Delete, Function.update_noteq hne]
      exact h.stored_of_pending k b0 hb0 hbp
  · intro q r hq
    simp only [SyncMap.Delete] at hq
    have hne : q ≠ g.key := by
      intro e
      rw [e, Function.update_same] at hq
      cases hq
    rw [Function.update_noteq hne] at hq
    obtain ⟨k, b0, hb0, e1, e2, e3⟩ := h.pending_of_stored q r hq
    rcases set_forth a hj hb0 with ⟨_, e4, _⟩ | ⟨_, e5⟩
    · subst e4
      exact absurd e1.symm hne
    · exact ⟨k, b0, e5, e1, e2, e3⟩
  · intro i k b c hb hc e
    obtain ⟨b0, hb0, _, e2, _⟩ := set_back hj hk ho hb
    obtain ⟨c0, hc0, _, e4, _⟩ := set_back hj hk ho hc
    exact h.ctx_inj i k b0 c0 hb0 hc0 (by rw [e2, e4]; exact e)
  · intro k b hb
    obtain ⟨b0, hb0, _, e2, _⟩ := set_back hj hk ho hb
    rw [← e2]
    exact h.ctx_lt k b0 hb0
  · intro c hc
    obtain ⟨k, b0, hb0, e1, e2⟩ := h.cancels_finished c hc
    rcases set_forth a hj hb0 with ⟨_, e4, e5⟩ | ⟨_, e5⟩
    · subst e4
      exact ⟨k, a, e5, by rw [ho]; exact e1, by omega⟩
    · exact ⟨k, b0, e5, e1, e2⟩
  · intro k b hb hbp
    obtain ⟨b0, hb0, _, e2, hc⟩ := set_back hj hk ho hb
    rw [← e2]
    refine h.finished_cancels k b0 hb0 ?_
    rcases hc with ⟨_, e3, e4⟩ | ⟨_, e3⟩
    · subst e3 e4; omega
    · subst e3; exact hbp
  · exact h.cancels_nodup

theorem WorldInv_cancel {w : World} (h : WorldInv w) (j : Nat) (g a : Goroutine)
    (hj : w.goroutines[j]? = some g) (hk : a.key = g.key) (ho : a.obj = g.obj)
    (hp : a.pc = g.pc + 1) (h3 : g.pc = 3) :
    WorldInv { w with cancels := w.cancels ++ [g.obj.cancel],
                      goroutines := w.goroutines.set j a } := by
  have fresh : g.obj.cancel ∉ w.cancels := by
    intro hc
    obtain ⟨k, b0, hb0, e1, e2⟩ := h.cancels_finished _ hc
    have := h.ctx_inj k j b0 g hb0 hj e1
    subst this
    rw [hj] at hb0
    cases hb0
    omega
  refine ⟨?_, ?_, ?_, ?_, ?_, ?_, ?_⟩
  · intro k b hb hbp
    obtain ⟨b0, hb0, e1, e2, hc⟩ := set_back hj hk ho hb
    rw [← e1, ← e2]
    refine h.stored_of_pending k b0 hb0 ?_
    rcases hc with ⟨_, e3, e4⟩ | ⟨_, e3⟩
    · subst e3 e4; omega
    · subst e3; exact hbp
  · intro q r hq
    obtain ⟨k, b0, hb0, e1, e2, e3⟩ := h.pending_of_stored q r hq
    rcases set_forth a hj hb0 with ⟨_, e4, e5⟩ | ⟨_, e5⟩
    · subst e4
      omega
    · exact ⟨k, b0, e5, e1, e2, e3⟩
  · intro i k b c hb hc e
    obtain ⟨b0, hb0, _, e2, _⟩ := set_back hj hk ho hb
    obtain ⟨c0, hc0, _, e4, _⟩ := set_back hj hk ho hc
    exact h.ctx_inj i k b0 c0 hb0 hc0 (by rw [e2, e4]; exact e)
  · intro k b hb
    obtain ⟨b0, hb0, _, e2, _⟩ := set_back hj hk ho hb
    rw [← e2]
    exact h.ctx_lt k b0 hb0
  · intro c hc
    simp only [List.mem_append, List.mem_singleton] at hc
    rcases hc with hc | hc
    · obtain ⟨k, b0, hb0, e1, e2⟩ := h.cancels_finished c hc
      rcases set_forth a hj hb0 with ⟨_, e4, e5⟩ | ⟨_, e5⟩
      · subst e4
        exact ⟨k, a, e5, by rw [ho]; exact e1, by omega⟩
      · exact ⟨k, b0, e5, e1, e2⟩
    · rcases set_forth a hj hj with ⟨_, _, e5⟩ | ⟨e4, _⟩
      · exact ⟨j, a, e5, by rw [ho, hc], by omega⟩
      · exact absurd rfl e4
  · intro k b hb hbp
    obtain ⟨b0, hb0, _, e2, hc⟩ := set_back hj hk ho hb
    simp only [List.mem_append, List.mem_singleton]
    rcases hc with ⟨_, e3, e4⟩ | ⟨_, e3⟩
    · subst e3 e4
      exact Or.inr (by rw [ho])
    · subst e3
      exact Or.inl (h.finished_cancels k b0 hb0 hbp)
  · simp only
    rw [List.nodup_append]
    refine ⟨h.cancels_nodup, List.nodup_singleton _, ?_⟩
    intro c hc hc2
    rw [List.mem_singleton] at hc2
    subst hc2
    exact fresh hc

theorem CallsInv_sched {w v : World} {calls : List Call} (h : CallsInv w calls) (j : Nat)
    (g a : Goroutine) (hj : w.goroutines[j]? = some g) (hk : a.key = g.key)
    (ho : a.obj = g.obj) (hg : v.goroutines = w.goroutines.set j a)
    (hn : v.nextCtx = w.nextCtx) : CallsInv v calls := by
  refine ⟨?_, ?_, ?_⟩
  · intro i cl r hi
    rw [hn]
    exact h.built_lt i cl r hi
  · intro i cl r k b hi hb
    rw [hg] at hb
    obtain ⟨b0, hb0, _, e2, _⟩ := set_back hj hk ho hb
    rw [← e2]
    exact h.built_ne i cl r k b0 hi hb0
  · exact h.built_inj

theorem CallsInv_store {w : World} {calls : List Call} (h : CallsInv w calls) (i : Nat)
    (cl : ClientCluster) (r : record) (ret : Option Handler)
    (hi : calls[i]? = some (Call.built cl r)) :
    CallsInv { w with
        servers := Function.update w.servers cl.Uuid (some r),
        goroutines := w.goroutines ++ [{ key := cl.Uuid, obj := r, pc := 0, clock := w.now }] }
      (calls.set i (Call.returned cl ret)) := by
  have ha : ∀ cm q, Call.returned cl ret ≠ Call.built cm q := by
    intro cm q e
    cases e
  refine ⟨?_, ?_, ?_⟩
  · intro k cm q hk
    exact h.built_lt k cm q (getElem?_set_built ha hk).1
  · intro k cm q j g hk hj
    obtain ⟨hk1, hk2⟩ := getElem?_set_built ha hk
    simp only at hj
    rcases (getElem?_append_one _ _ _ _).1 hj with hj | ⟨_, hg⟩
    · exact h.built_ne k cm q j g hk1 hj
    · subst hg
      intro e
      exact hk2 (h.built_inj i k cl cm r q hi hk1 e).symm
  · intro k m cm cn q p hk hm e
    exact h.built_inj k m cm cn q p (getElem?_set_built ha hk).1 (getElem?_set_built ha hm).1 e

theorem Inv_step {s t : System} {a : Action} (h : Inv s) (hs : step s a = some t) : Inv t := by
  obtain ⟨hw, hc⟩ := h
  cases a with
  | invoke cluster =>
    simp only [step, Option.some.injEq] at hs
    subst hs
    exact ⟨hw, CallsInv_append hc cluster⟩
  | load i =>
    simp only [step] at hs
    split at hs
    · split at hs <;>
      · simp only [Option.some.injEq] at hs
        subst hs
        exact ⟨hw, CallsInv_set hc i _ (by intro cm q e; cases e)⟩
    · cases hs
  | build i x c =>
    simp only [step] at hs
    split at hs
    · rename_i cluster hi
      have hf := build_frame x c cluster s.world
      have hfr := build_fresh x c cluster s.world
      revert hs hf hfr
      rcases APIServer.build x c cluster s.world with ⟨_ | server, w1⟩
      · intro hs hf _
        simp only [Option.some.injEq] at hs
        subst hs
        exact ⟨WorldInv_congr hw hf.1 hf.2.2.1 hf.2.1 hf.2.2.2.2,
          CallsInv_set (CallsInv_congr hc hf.2.2.1 hf.2.2.2.2) i _ (by intro cm q e; cases e)⟩
      · intro hs hf hfr
        simp only [Option.some.injEq] at hs
        subst hs
        have h2 := hfr server rfl
        exact ⟨WorldInv_congr hw hf.1 hf.2.2.1 hf.2.1 hf.2.2.2.2,
          CallsInv_build hc hw hf.2.2.1 i cluster server h2.1 h2.2⟩
    · cases hs
  | store i =>
    simp only [step] at hs
    split at hs
    · rename_i cluster server hi
      rcases hk : s.world.servers cluster.Uuid with _ | obj
      · rw [store_miss cluster server s.world hk] at hs
        simp only [Option.some.injEq] at hs
        subst hs
        exact ⟨WorldInv_store hw cluster.Uuid server hk (hc.built_lt i cluster server hi)
            (fun j g hj => hc.built_ne i cluster server j g hi hj),
          CallsInv_store hc i cluster server _ hi⟩
      · rw [store_hit cluster server obj s.world hk] at hs
        simp only [Option.some.injEq] at hs
        subst hs
        exact ⟨hw, CallsInv_set hc i _ (by intro cm q e; cases e)⟩
    · cases hs
  | sched j =>
    simp only [step] at hs
    split at hs
    · rename_i g hj
      split at hs
      · rename_i ins hn
        split at hs
        · simp only [Option.some.injEq] at hs
          subst hs
          rcases next_cases hn with ⟨hp, e⟩ | ⟨hp, e⟩ | ⟨hp, e⟩ | ⟨hp, e⟩ <;> subst e
          · exact ⟨WorldInv_sleep hw j g (g.advance (Instr.sleep (10 * Minute)) s.world.now)
                hj rfl rfl rfl (by omega) (by omega),
              CallsInv_sched hc j g (g.advance (Instr.sleep (10 * Minute)) s.world.now)
                hj rfl rfl rfl rfl⟩
          · exact ⟨WorldInv_delete hw j g (g.advance (Instr.delete g.key) s.world.now)
                hj rfl rfl rfl hp,
              CallsInv_sched hc j g (g.advance (Instr.delete g.key) s.world.now)
                hj rfl rfl rfl rfl⟩
          · exact ⟨WorldInv_sleep hw j g (g.advance (Instr.sleep Minute) s.world.now)
                hj rfl rfl rfl (by omega) (by omega),
              CallsInv_sched hc j g (g.advance (Instr.sleep Minute) s.world.now)
                hj rfl rfl rfl rfl⟩
          · exact ⟨WorldInv_cancel hw j g (g.advance (Instr.cancel g.obj) s.world.now)
                hj rfl rfl rfl hp,
              CallsInv_sched hc j g (g.advance (Instr.cancel g.obj) s.world.now)
                hj rfl rfl rfl rfl⟩
        · cases hs
      · cases hs
    · cases hs
  | tick d =>
    simp only [step, Option.some.injEq] at hs
    subst hs
    exact ⟨WorldInv_congr hw rfl rfl rfl (le_refl _), CallsInv_congr hc rfl (le_refl _)⟩

theorem Inv_run {as : List Action} : ∀ {s t : System}, Inv s → run s as = some t → Inv t := by
  induction as with
  | nil =>
    intro s t h hr
    simp only [run, Option.some.injEq] at hr
    subst hr
    exact h
  | cons a as ih =>
    intro s t h hr
    simp only [run] at hr
    rcases hstep : step s a with _ | u
    · rw [hstep] at hr
      cases hr
    · rw [hstep] at hr
      exact ih (Inv_step h hstep) hr

theorem Inv_of_reachable {s : System} (h : Reachable s) : Inv s := by
  obtain ⟨as, hr⟩ := h
  exact Inv_run Inv_empty hr

/-- An uninterrupted call of `APIServer` is one of the interleavings: its atomic
steps run back to back give the result and the world of the function. -/
theorem APIServer_as_steps (x : Collab) (c : Manager) (s : System) (i : Nat)
    (cl : ClientCluster) (hi : s.calls[i]? = some (Call.entry cl)) :
    ∃ as t, run s as = some t ∧ t.world = (APIServer x c cl s.world).2 ∧
      t.calls = s.calls.set i (Call.returned cl (APIServer x c cl s.world).1) := by
  have hlt : i < s.calls.length := by
    rcases Nat.lt_or_ge i s.calls.length with hlt | hge
    · exact hlt
    · rw [List.getElem?_eq_none hge] at hi
      cases hi
  have hset : ∀ (a : Call), (s.calls.set i a)[i]? = some a := fun a =>
    (getElem?_set_iff _ _ _ _ _).2 (Or.inl ⟨rfl, hlt, rfl⟩)
  rcases hl : s.world.servers cl.Uuid with _ | obj
  · rcases hb : APIServer.build x c cl s.world with ⟨_ | server, w1⟩
    · refine ⟨[Action.load i, Action.build i x c],
        ⟨(APIServer x c cl s.world).2,
          s.calls.set i (Call.returned cl (APIServer x c cl s.world).1)⟩, ?_, rfl, rfl⟩
      simp [run, step, hi, SyncMap.Load, hl, Option.bind, hset, hb,
        APIServer_miss x c cl s.world hl, List.set_set]
    · refine ⟨[Action.load i, Action.build i x c, Action.store i],
        ⟨(APIServer x c cl s.world).2,
          s.calls.set i (Call.returned cl (APIServer x c cl s.world).1)⟩, ?_, rfl, rfl⟩
      simp [run, step, hi, SyncMap.Load, hl, Option.bind, hset, hb,
        APIServer_miss x c cl s.world hl, List.set_set]
  · refine ⟨[Action.load i],
      ⟨(APIServer x c cl s.world).2,
        s.calls.set i (Call.returned cl (APIServer x c cl s.world).1)⟩, ?_, rfl, rfl⟩
    simp [run, step, hi, SyncMap.Load, hl, Option.bind, APIServer]

/-! ## Claims about the interleaved execution -/

theorem beforeDelete_iff (g : Goroutine) : g.beforeDelete = true ↔ g.pc ≤ 1 := by
  simp [Goroutine.beforeDelete]

theorem cancelled_iff (w : World) (c : Nat) : w.cancelled c = true ↔ c ∈ w.cancels := by
  simp [World.cancelled]

theorem cancelled_false_iff (w : World) (c : Nat) : w.cancelled c = false ↔ c ∉ w.cancels := by
  simp [World.cancelled]

theorem not_stored_of_deleted {w : World} (h : WorldInv w) {j : Nat} {g : Goroutine}
    (hj : w.goroutines[j]? = some g) (hp : 2 ≤ g.pc) (k : String) (r : record)
    (hr : r.cancel = g.obj.cancel) : w.servers k ≠ some r := by
  intro hs
  obtain ⟨i, b, hb, _, e2, e3⟩ := h.pending_of_stored k r hs
  have := h.ctx_inj i j b g hb hj (by rw [e2, hr])
  subst this
  rw [hj] at hb
  cases hb
  omega

/-- C3: in every reachable state, (1) the cancel function of a record stored in
`servers` has not been invoked, (2) no cancel function has been invoked more
than once, and (3) whenever a goroutine is about to invoke cancel, its record is
stored under no key and its cancel function has not been invoked before; the
step appends exactly that one invocation and the record is still not stored. -/
theorem cancel_only_after_removal (s : System) (h : Reachable s) :
    (∀ (k : String) (r : record), s.world.servers.Load k = some r →
      s.world.cancelled r.cancel = false) ∧
    (∀ (c : Nat), s.world.cancels.count c ≤ 1) ∧
    (∀ (j : Nat) (g : Goroutine) (t : System), s.world.goroutines[j]? = some g →
      g.next = some (Instr.cancel g.obj) → step s (Action.sched j) = some t →
      (∀ (k : String), s.world.servers.Load k ≠ some g.obj) ∧
      s.world.cancelled g.obj.cancel = false ∧
      t.world.cancels = s.world.cancels ++ [g.obj.cancel] ∧
      (∀ (k : String), t.world.servers.Load k ≠ some g.obj)) := by
  have hi := (Inv_of_reachable h).1
  refine ⟨?_, ?_, ?_⟩
  · intro k r hs
    rw [cancelled_false_iff]
    intro hc
    obtain ⟨j, g, hj, e1, e2⟩ := hi.cancels_finished _ hc
    exact not_stored_of_deleted hi hj (by omega) k r e1.symm hs
  · intro c
    exact List.nodup_iff_count_le_one.1 hi.cancels_nodup c
  · intro j g t hj hn hstep
    have hp : g.pc = 3 := by
      rcases next_cases hn with ⟨_, e⟩ | ⟨_, e⟩ | ⟨_, e⟩ | ⟨hp, _⟩
      · cases e
      · cases e
      · cases e
      · exact hp
    have hfresh : g.obj.cancel ∉ s.world.cancels := by
      intro hc
      obtain ⟨k, b0, hb0, e1, e2⟩ := hi.cancels_finished _ hc
      have := hi.ctx_inj k j b0 g hb0 hj e1
      subst this
      rw [hj] at hb0
      cases hb0
      omega
    have ht : t.world.cancels = s.world.cancels ++ [g.obj.cancel] ∧
        t.world.servers = s.world.servers := by
      simp only [step, hj, hn] at hstep
      split at hstep
      · simp only [Option.some.injEq] at hstep
        subst hstep
        exact ⟨rfl, rfl⟩
      · cases hstep
    refine ⟨fun k => not_stored_of_deleted hi hj (by omega) k g.obj rfl, ?_, ht.1, ?_⟩
    · rw [cancelled_false_iff]
      exact hfresh
    · intro k
      simp only [SyncMap.Load, ht.2]
      exact not_stored_of_deleted hi hj (by omega) k g.obj rfl

theorem cancel_only_after_removal_witness :
    Reachable lifeSystem ∧
    lifeSystem.world.goroutines[0]? =
      some { key := "uuid-1", obj := { handler := some 100, ctx := 0, cancel := 0 }, pc := 3,
             clock := 11 * Minute } ∧
    lifeSystem.world.cancels.count 0 ≤ 1 ∧
    lifeSystem.world.servers.Load "uuid-1" ≠ some { handler := some 100, ctx := 0, cancel := 0 } ∧
    lifeSystem.world.cancelled 0 = false :=
  have h := cancel_only_after_removal lifeSystem ⟨lifeRun, rfl⟩
  have h3 := h.2.2 0 _ ((step lifeSystem (Action.sched 0)).getD System.empty) rfl rfl rfl
  ⟨⟨lifeRun, rfl⟩, rfl, h.2.1 0, h3.1 "uuid-1", h3.2.1⟩

/-- C10: in every reachable state, (1) a goroutine whose next statement is its
`Delete` finds its own record stored under its key, so the `Delete` removes that
record and no other; (2) a key holds a record if and only if exactly one
goroutine for that key has not yet performed its `Delete`; (3) that goroutine is
bound to the stored record. -/
theorem scheduler_deletes_own_record (s : System) (h : Reachable s) :
    (∀ (j : Nat) (g : Goroutine), s.world.goroutines[j]? = some g →
      g.next = some (Instr.delete g.key) → s.world.servers.Load g.key = some g.obj) ∧
    (∀ (k : String), (∃ r, s.world.servers.Load k = some r) ↔
      ∃! (j : Nat), ∃ (g : Goroutine),
        s.world.goroutines[j]? = some g ∧ g.key = k ∧ g.beforeDelete = true) ∧
    (∀ (k : String) (r : record) (j : Nat) (g : Goroutine), s.world.servers.Load k = some r →
      s.world.goroutines[j]? = some g → g.key = k → g.beforeDelete = true → g.obj = r) := by
  have hi := (Inv_of_reachable h).1
  have bound : ∀ (k : String) (r : record) (j : Nat) (g : Goroutine),
      s.world.servers k = some r → s.world.goroutines[j]? = some g → g.key = k →
      g.pc ≤ 1 → g.obj = r := by
    intro k r j g hs hj hk hp
    have := hi.stored_of_pending j g hj hp
    rw [hk, hs] at this
    exact (Option.some.inj this).symm
  refine ⟨?_, ?_, ?_⟩
  · intro j g hj hn
    have hp : g.pc = 1 := by
      rcases next_cases hn with ⟨_, e⟩ | ⟨hp, _⟩ | ⟨_, e⟩ | ⟨_, e⟩
      · cases e
      · exact hp
      · cases e
      · cases e
    exact hi.stored_of_pending j g hj (by omega)
  · intro k
    constructor
    · rintro ⟨r, hr⟩
      obtain ⟨j, g, hj, e1, e2, e3⟩ := hi.pending_of_stored k r hr
      refine ⟨j, ⟨g, hj, e1, (beforeDelete_iff g).2 e3⟩, ?_⟩
      rintro i ⟨b, hb, e4, e5⟩
      have e6 := bound k r i b hr hb e4 ((beforeDelete_iff b).1 e5)
      exact hi.ctx_inj i j b g hb hj (by rw [e6, e2])
    · rintro ⟨j, ⟨g, hj, e1, e2⟩, _⟩
      exact ⟨g.obj, by rw [← e1]; exact hi.stored_of_pending j g hj ((beforeDelete_iff g).1 e2)⟩
  · intro k r j g hs hj hk hp
    exact bound k r j g hs hj hk ((beforeDelete_iff g).1 hp)

theorem scheduler_deletes_own_record_witness :
    Reachable soloSystem ∧
    soloSystem.world.goroutines[0]? =
      some { key := "uuid-1", obj := { handler := some 100, ctx := 0, cancel := 0 }, pc := 0,
             clock := 0 } ∧
    ((∃ r, soloSystem.world.servers.Load "uuid-1" = some r) ↔
      ∃! (j : Nat), ∃ (g : Goroutine),
        soloSystem.world.goroutines[j]? = some g ∧ g.key = "uuid-1" ∧ g.beforeDelete = true) ∧
    soloSystem.world.servers.Load "uuid-1" = some { handler := some 100, ctx := 0, cancel := 0 } :=
  ⟨⟨soloRun, rfl⟩, rfl, (scheduler_deletes_own_record soloSystem ⟨soloRun, rfl⟩).2.1 "uuid-1", rfl⟩

/-! ## The timeline of one eviction goroutine under exact timers -/

theorem Timeline_keep {s t : System} {j : Nat} {k : String} {r : record} {T : Nat}
    (h : Timeline s j k r T)
    (hg : ∀ g, s.world.goroutines[j]? = some g → t.world.goroutines[j]? = some g)
    (hn : t.world.now = s.world.now) : Timeline t j k r T := by
  obtain ⟨g, h1, h2, h3, h4, h5, h6⟩ := h
  exact ⟨g, hg g h1, h2, h3, by rw [hn]; exact h4, by rw [hn]; exact h5, by rw [hn]; exact h6⟩

theorem step_sched_eq {s t : System} {j : Nat} (hs : step s (Action.sched j) = some t) :
    ∃ g ins, s.world.goroutines[j]? = some g ∧ g.next = some ins ∧ g.clock ≤ s.world.now ∧
      t.world.goroutines = s.world.goroutines.set j (g.advance ins s.world.now) ∧
      t.world.now = s.world.now := by
  simp only [step] at hs
  split at hs
  · rename_i g hj
    split at hs
    · rename_i ins hn
      split at hs
      · rename_i hc
        simp only [Option.some.injEq] at hs
        subst hs
        refine ⟨g, ins, hj, hn, hc, ?_, ?_⟩ <;> cases ins <;> rfl
      · cases hs
    · cases hs
  · cases hs

theorem step_other {s t : System} {a : Action} (hs : step s a = some t)
    (ha : a.isSched = false) :
    t.world.now = s.world.now + (match a with
      | Action.tick d => d
      | _ => 0) ∧
    ((t.world.goroutines = s.world.goroutines) ∨
      (a.isStore = true ∧ ∃ g, g.pc = 0 ∧ g.clock = s.world.now ∧
        t.world.goroutines = s.world.goroutines ++ [g])) := by
  cases a with
  | invoke cluster =>
    simp only [step, Option.some.injEq] at hs
    subst hs
    exact ⟨rfl, Or.inl rfl⟩
  | load i =>
    simp only [step] at hs
    split at hs
    · split at hs <;>
      · simp only [Option.some.injEq] at hs
        subst hs
        exact ⟨rfl, Or.inl rfl⟩
    · cases hs
  | build i x c =>
    simp only [step] at hs
    split at hs
    · rename_i cluster hi
      have hf := build_frame x c cluster s.world
      revert hs hf
      rcases APIServer.build x c cluster s.world with ⟨_ | server, w1⟩ <;> intro hs hf <;>
        simp only [Option.some.injEq] at hs <;> subst hs <;>
        exact ⟨hf.2.2.2.1, Or.inl hf.2.2.1⟩
    · cases hs
  | store i =>
    simp only [step] at hs
    split at hs
    · rename_i cluster server hi
      rcases hk : s.world.servers cluster.Uuid with _ | obj
      · rw [store_miss cluster server s.world hk] at hs
        simp only [Option.some.injEq] at hs
        subst hs
        exact ⟨rfl, Or.inr ⟨rfl, _, rfl, rfl, rfl⟩⟩
      · rw [store_hit cluster server obj s.world hk] at hs
        simp only [Option.some.injEq] at hs
        subst hs
        exact ⟨rfl, Or.inl rfl⟩
    · cases hs
  | sched j => simp [Action.isSched] at ha
  | tick d =>
    simp only [step, Option.some.injEq] at hs
    subst hs
    exact ⟨rfl, Or.inl rfl⟩

theorem Timeline_step {s t : System} {a : Action} {j : Nat} {k : String} {r : record}
    {T : Nat} (h : Timeline s j k r T) (hp : punctual s a = true) (hs : step s a = some t) :
    Timeline t j k r T := by
  by_cases ha : a.isSched = false
  · obtain ⟨hn, hg⟩ := step_other hs ha
    have hget : ∀ g, s.world.goroutines[j]? = some g → t.world.goroutines[j]? = some g := by
      intro g hj
      rcases hg with hg | ⟨_, b, _, _, hg⟩
      · rw [hg]; exact hj
      · rw [hg]; exact (getElem?_append_one _ _ _ _).2 (Or.inl hj)
    cases a with
    | tick d =>
      obtain ⟨g, h1, h2, h3, h4, h5, h6⟩ := h
      simp only at hn
      have hall : g.pc < 4 → s.world.now + d ≤ g.clock := by
        intro hpc
        simp only [punctual, List.all_eq_true] at hp
        have := hp g (List.getElem?_mem h1)
        simp only [Goroutine.finished, Bool.or_eq_true, decide_eq_true_eq] at this
        omega
      refine ⟨g, hget g h1, h2, h3, by omega, by rw [hn]; exact hall, ?_⟩
      rw [hn]
      omega
    | invoke c => exact Timeline_keep h hget (by simpa using hn)
    | load i => exact Timeline_keep h hget (by simpa using hn)
    | build i x c => exact Timeline_keep h hget (by simpa using hn)
    | store i => exact Timeline_keep h hget (by simpa using hn)
    | sched i => simp [Action.isSched] at ha
  · cases a with
    | sched i =>
      obtain ⟨g0, ins, hi, hnext, _, hg, hn⟩ := step_sched_eq hs
      by_cases e : i = j
      · subst e
        obtain ⟨g, h1, h2, h3, h4, h5, h6⟩ := h
        rw [hi] at h1
        cases h1
        have hclock : g0.clock = s.world.now := by
          simpa [punctual, hi] using hp
        have hlt : i < s.world.goroutines.length := by
          rcases Nat.lt_or_ge i s.world.goroutines.length with hl | hl
          · exact hl
          · rw [List.getElem?_eq_none hl] at hi
            cases hi
        have hnew : t.world.goroutines[i]? = some (g0.advance ins s.world.now) := by
          rw [hg]
          exact (getElem?_set_iff _ _ _ _ _).2 (Or.inl ⟨rfl, hlt, rfl⟩)
        refine ⟨_, hnew, h2, h3, by rw [hn]; exact h4, ?_, ?_⟩
        · rw [hn]
          rcases next_cases hnext with ⟨_, e⟩ | ⟨_, e⟩ | ⟨_, e⟩ | ⟨_, e⟩ <;> subst e <;>
            simp [Goroutine.advance, Instr.wake]
        · rw [hn]
          rcases next_cases hnext with ⟨hpc, e⟩ | ⟨hpc, e⟩ | ⟨hpc, e⟩ | ⟨hpc, e⟩ <;> subst e <;>
            simp only [Goroutine.advance, Instr.wake] <;> omega
      · refine Timeline_keep h ?_ hn
        intro g hj
        rw [hg]
        exact (getElem?_set_iff _ _ _ _ _).2 (Or.inr ⟨fun e2 => e e2.symm, hj⟩)
    | invoke c => simp [Action.isSched] at ha
    | load i => simp [Action.isSched] at ha
    | build i x c => simp [Action.isSched] at ha
    | store i => simp [Action.isSched] at ha
    | tick d => simp [Action.isSched] at ha

theorem runPunctual_cons {s t : System} {a : Action} {as : List Action}
    (h : runPunctual s (a :: as) = some t) :
    punctual s a = true ∧ ∃ u, step s a = some u ∧ runPunctual u as = some t := by
  simp only [runPunctual] at h
  split at h
  · rename_i hp
    rcases hstep : step s a with _ | u
    · rw [hstep] at h
      cases h
    · rw [hstep] at h
      exact ⟨hp, u, rfl, h⟩
  · cases h

theorem run_of_runPunctual {as : List Action} : ∀ {s t : System},
    runPunctual s as = some t → run s as = some t := by
  induction as with
  | nil =>
    intro s t h
    exact h
  | cons a as ih =>
    intro s t h
    obtain ⟨_, u, hu, hr⟩ := runPunctual_cons h
    simp only [run, hu]
    exact ih hr

theorem Timeline_run {as : List Action} {j : Nat} {k : String} {r : record} {T : Nat} :
    ∀ {s t : System}, Timeline s j k r T → runPunctual s as = some t → Timeline t j k r T := by
  induction as with
  | nil =>
    intro s t h hr
    simp only [runPunctual, Option.some.injEq] at hr
    subst hr
    exact h
  | cons a as ih =>
    intro s t h hr
    obtain ⟨hp, u, hu, hr2⟩ := runPunctual_cons hr
    exact ih (Timeline_step h hp hu) hr2

theorem NotEarly_step {s t : System} {a : Action} {j : Nat} {k : String} {r : record}
    {T : Nat} (h : NotEarly s j k r T) (hs : step s a = some t) : NotEarly t j k r T := by
  by_cases ha : a.isSched = false
  · obtain ⟨hn, hg⟩ := step_other hs ha
    obtain ⟨g, h1, h2, h3, h6⟩ := h
    have hget : t.world.goroutines[j]? = some g := by
      rcases hg with hg | ⟨_, b, _, _, hg⟩
      · rw [hg]; exact h1
      · rw [hg]; exact (getElem?_append_one _ _ _ _).2 (Or.inl h1)
    have hle : s.world.now ≤ t.world.now := by omega
    refine ⟨g, hget, h2, h3, ?_⟩
    omega
  · cases a with
    | sched i =>
      obtain ⟨g0, ins, hi, hnext, hdue, hg, hn⟩ := step_sched_eq hs
      by_cases e : i = j
      · subst e
        obtain ⟨g, h1, h2, h3, h6⟩ := h
        rw [hi] at h1
        cases h1
        have hlt : i < s.world.goroutines.length := by
          rcases Nat.lt_or_ge i s.world.goroutines.length with hl | hl
          · exact hl
          · rw [List.getElem?_eq_none hl] at hi
            cases hi
        have hnew : t.world.goroutines[i]? = some (g0.advance ins s.world.now) := by
          rw [hg]
          exact (getElem?_set_iff _ _ _ _ _).2 (Or.inl ⟨rfl, hlt, rfl⟩)
        refine ⟨_, hnew, h2, h3, ?_⟩
        rw [hn]
        rcases next_cases hnext with ⟨hpc, e⟩ | ⟨hpc, e⟩ | ⟨hpc, e⟩ | ⟨hpc, e⟩ <;> subst e <;>
          simp only [Goroutine.advance, Instr.wake] <;> omega
      · obtain ⟨g, h1, h2, h3, h6⟩ := h
        refine ⟨g, ?_, h2, h3, by rw [hn]; exact h6⟩
        rw [hg]
        exact (getElem?_set_iff _ _ _ _ _).2 (Or.inr ⟨fun e2 => e e2.symm, h1⟩)
    | invoke c => simp [Action.isSched] at ha
    | load i => simp [Action.isSched] at ha
    | build i x c => simp [Action.isSched] at ha
    | store i => simp [Action.isSched] at ha
    | tick d => simp [Action.isSched] at ha

theorem NotEarly_run {as : List Action} {j : Nat} {k : String} {r : record} {T : Nat} :
    ∀ {s t : System}, NotEarly s j k r T → run s as = some t → NotEarly t j k r T := by
  induction as with
  | nil =>
    intro s t h hr
    simp only [run, Option.some.injEq] at hr
    subst hr
    exact h
  | cons a as ih =>
    intro s t h hr
    simp only [run] at hr
    rcases hstep : step s a with _ | u
    · rw [hstep] at hr
      cases hr
    · rw [hstep] at hr
      exact ih (NotEarly_step h hstep) hr

/-- C7 as the code has it: when a call has built a record and `LoadOrStore`
finds another record stored under the key, the call returns the handler of the
stored record and changes neither the map, nor the goroutines, nor the invoked
cancel functions: the cancel function of the losing record is not invoked, no
goroutine is bound to the losing record, and the losing record is not the stored
one. -/
theorem loser_context_not_cancelled (s t : System) (i : Nat) (cl : ClientCluster)
    (server stored : record) (h : Reachable s)
    (hi : s.calls[i]? = some (Call.built cl server))
    (hl : s.world.servers.Load cl.Uuid = some stored)
    (hs : step s (Action.store i) = some t) :
    (s.world.servers.LoadOrStore cl.Uuid server).1 = (stored, true) ∧
    t.calls[i]? = some (Call.returned cl stored.handler) ∧
    t.world.servers = s.world.servers ∧
    t.world.goroutines = s.world.goroutines ∧
    t.world.cancels = s.world.cancels ∧
    t.world.cancelled server.cancel = false ∧
    (∀ (j : Nat) (g : Goroutine), t.world.goroutines[j]? = some g →
      g.obj.cancel ≠ server.cancel) ∧
    stored.cancel ≠ server.cancel := by
  obtain ⟨hw, hc⟩ := Inv_of_reachable h
  have ht : t = { world := s.world, calls := s.calls.set i (Call.returned cl stored.handler) } := by
    simp only [step, hi] at hs
    rw [store_hit cl server stored s.world hl] at hs
    simp only [Option.some.injEq] at hs
    exact hs.symm
  have hlt : i < s.calls.length := by
    rcases Nat.lt_or_ge i s.calls.length with hlt | hge
    · exact hlt
    · rw [List.getElem?_eq_none hge] at hi
      cases hi
  have hne := fun j g hj => hc.built_ne i cl server j g hi hj
  subst ht
  refine ⟨?_, ?_, rfl, rfl, rfl, ?_, hne, ?_⟩
  · simp only [SyncMap.Load] at hl
    simp [SyncMap.LoadOrStore, hl]
  · exact (getElem?_set_iff _ _ _ _ _).2 (Or.inl ⟨rfl, hlt, rfl⟩)
  · rw [cancelled_false_iff]
    intro hcan
    obtain ⟨j, g, hj, e1, _⟩ := hw.cancels_finished _ hcan
    exact hne j g hj e1
  · obtain ⟨j, g, hj, _, e2, _⟩ := hw.pending_of_stored cl.Uuid stored hl
    rw [← e2]
    exact hne j g hj

theorem loser_context_not_cancelled_witness :
    raceSystem.calls[1]? =
      some (Call.built demoCluster { handler := some 101, ctx := 1, cancel := 1 }) ∧
    raceDoneSystem.calls[1]? = some (Call.returned demoCluster (some 100)) ∧
    raceDoneSystem.world.cancelled 1 = false :=
  have h := loser_context_not_cancelled raceSystem raceDoneSystem 1 demoCluster
    { handler := some 101, ctx := 1, cancel := 1 } { handler := some 100, ctx := 0, cancel := 0 }
    ⟨raceRun, rfl⟩ rfl rfl rfl
  ⟨rfl, h.2.1, h.2.2.2.2.2.1⟩

/-- C7 fails as stated: two calls for one key both miss and both build; call 0
stores its record (context 0), call 1 loses and returns the handler of call 0.
Context 1, created by call 1, is not cancelled when call 1 returns, and still
is not after the only goroutine has run to its end and cancelled context 0. -/
theorem loser_context_leaks :
    run System.empty raceEndRun = some raceEndSystem ∧
    Event.withCancel 1 ∈ raceDoneSystem.world.trace ∧
    raceDoneSystem.calls = [Call.returned demoCluster (some 100),
      Call.returned demoCluster (some 100)] ∧
    raceDoneSystem.world.servers.Load "uuid-1" =
      some { handler := some 100, ctx := 0, cancel := 0 } ∧
    raceDoneSystem.world.cancels = [] ∧
    raceDoneSystem.world.cancelled 1 = false ∧
    raceEndSystem.world.goroutines =
      [{ key := "uuid-1", obj := { handler := some 100, ctx := 0, cancel := 0 }, pc := 4,
         clock := 11 * Minute }] ∧
    raceEndSystem.world.cancels = [0] ∧
    raceEndSystem.world.cancelled 1 = false := by
  refine ⟨rfl, ?_, rfl, rfl, rfl, rfl, rfl, rfl, rfl⟩
  decide

/-! ## Racing calls -/

theorem Agree_step {c0 : List Call} {s t : System} {a : Action} (h : Agree c0 s)
    (ha : a.isSched = false) (hs : step s a = some t) :
    Agree c0 t ∧ ∀ (k : String) (q : record), s.world.servers k = some q →
      t.world.servers k = some q := by
  cases a with
  | invoke cluster =>
    simp only [step, Option.some.injEq] at hs
    subst hs
    refine ⟨?_, fun k q hq => hq⟩
    intro k cl hd hk
    rcases (getElem?_append_one _ _ _ _).1 hk with hk | ⟨_, e⟩
    · exact h k cl hd hk
    · cases e
  | load i =>
    simp only [step] at hs
    split at hs
    · rename_i cluster hi
      rcases hl : s.world.servers.Load cluster.Uuid with _ | obj <;> rw [hl] at hs <;>
        simp only [Option.some.injEq] at hs <;> subst hs <;>
        refine ⟨?_, fun k q hq => hq⟩ <;> intro k cl hd hk <;>
        rcases (getElem?_set_iff _ _ _ _ _).1 hk with ⟨_, _, e⟩ | ⟨_, e⟩
      · cases e
      · exact h k cl hd e
      · injection e with e1 e2
        subst e1
        exact Or.inr ⟨obj, hl, e2.symm⟩
      · exact h k cl hd e
    · cases hs
  | build i x c =>
    simp only [step] at hs
    split at hs
    · rename_i cluster hi
      have hf := (build_frame x c cluster s.world).1
      revert hs hf
      rcases APIServer.build x c cluster s.world with ⟨_ | server, w1⟩ <;> intro hs hf <;>
        simp only [Option.some.injEq] at hs <;> subst hs <;> simp only at hf <;>
        refine ⟨?_, fun k q hq => by simp only [hf]; exact hq⟩ <;> intro k cl hd hk <;>
        rcases (getElem?_set_iff _ _ _ _ _).1 hk with ⟨_, _, e⟩ | ⟨_, e⟩
      · cases e
      · simp only [hf]
        exact h k cl hd e
      · cases e
      · simp only [hf]
        exact h k cl hd e
    · cases hs
  | store i =>
    simp only [step] at hs
    split at hs
    · rename_i cluster server hi
      rcases hk : s.world.servers cluster.Uuid with _ | obj
      · rw [store_miss cluster server s.world hk] at hs
        simp only [Option.some.injEq] at hs
        subst hs
        have keep : ∀ (k : String) (q : record), s.world.servers k = some q →
            Function.update s.world.servers cluster.Uuid (some server) k = some q := by
          intro k q hq
          have hne : k ≠ cluster.Uuid := by
            intro e2
            rw [e2, hk] at hq
            cases hq
          rw [Function.update_noteq hne]
          exact hq
        refine ⟨?_, keep⟩
        intro k cl hd hget
        rcases (getElem?_set_iff _ _ _ _ _).1 hget with ⟨_, _, e⟩ | ⟨_, e⟩
        · injection e with e1 e2
          subst e1
          exact Or.inr ⟨server, by simp, e2.symm⟩
        · rcases h k cl hd e with hold | ⟨r, h1, h2⟩
          · exact Or.inl hold
          · exact Or.inr ⟨r, keep _ _ h1, h2⟩
      · rw [store_hit cluster server obj s.world hk] at hs
        simp only [Option.some.injEq] at hs
        subst hs
        refine ⟨?_, fun k q hq => hq⟩
        intro k cl hd hget
        rcases (getElem?_set_iff _ _ _ _ _).1 hget with ⟨_, _, e⟩ | ⟨_, e⟩
        · injection e with e1 e2
          subst e1
          exact Or.inr ⟨obj, hk, e2.symm⟩
        · exact h k cl hd e
    · cases hs
  | sched j => simp [Action.isSched] at ha
  | tick d =>
    simp only [step, Option.some.injEq] at hs
    subst hs
    exact ⟨h, fun k q hq => hq⟩

theorem Grown_step {s0 s t : System} {a : Action} (h : Grown s0 s)
    (hk : ∀ (k : String) (q : record), s.world.servers k = some q → t.world.servers k = some q)
    (ha : a.isSched = false) (hs : step s a = some t) : Grown s0 t := by
  obtain ⟨h1, h2, h3, h4⟩ := h
  rcases (step_other hs ha).2 with hg | ⟨_, g, hp, _, hg⟩
  · unfold Grown
    rw [hg]
    exact ⟨h1, h2, h3, fun k q hq => hk k q (h4 k q hq)⟩
  · unfold Grown
    rw [hg]
    refine ⟨?_, ?_, ?_, fun k q hq => hk k q (h4 k q hq)⟩
    · intro j hj
      rw [List.getElem?_append_left (by omega)]
      exact h1 j hj
    · intro j b hj hb
      rcases (getElem?_append_one _ _ _ _).1 hb with hb | ⟨_, e⟩
      · exact h2 j b hj hb
      · rw [e]; exact hp
    · simp only [List.length_append, List.length_singleton]
      omega

theorem Agree_run {c0 : List Call} {s0 : System} {as : List Action} :
    ∀ {s t : System}, Agree c0 s → Grown s0 s → (∀ a ∈ as, a.isSched = false) →
      run s as = some t → Agree c0 t ∧ Grown s0 t := by
  induction as with
  | nil =>
    intro s t h hg _ hr
    simp only [run, Option.some.injEq] at hr
    subst hr
    exact ⟨h, hg⟩
  | cons a as ih =>
    intro s t h hg ha hr
    simp only [run] at hr
    rcases hstep : step s a with _ | u
    · rw [hstep] at hr
      cases hr
    · rw [hstep] at hr
      have hsa := ha a (List.mem_cons_self _ _)
      obtain ⟨hag, hkeep⟩ := Agree_step h hsa hstep
      exact ih hag (Grown_step hg hkeep hsa hstep)
        (fun b hb => ha b (List.mem_cons_of_mem _ hb)) hr

theorem pending_bound {w : World} (h : WorldInv w) {k : String} {r : record} {j : Nat}
    {g : Goroutine} (hs : w.servers k = some r) (hj : w.goroutines[j]? = some g)
    (hk : g.key = k) (hp : g.pc ≤ 1) : g.obj = r := by
  have := h.stored_of_pending j g hj hp
  rw [hk, hs] at this
  exact (Option.some.inj this).symm

theorem pending_same {w : World} (h : WorldInv w) {k : String} {i j : Nat} {a b : Goroutine}
    (hi : w.goroutines[i]? = some a) (hj : w.goroutines[j]? = some b)
    (ha : a.key = k) (hb : b.key = k) (hpa : a.pc ≤ 1) (hpb : b.pc ≤ 1) : i = j := by
  have h1 := h.stored_of_pending i a hi hpa
  have h2 := h.stored_of_pending j b hj hpb
  rw [ha] at h1
  rw [hb, h1] at h2
  exact h.ctx_inj i j a b hi hj (by rw [Option.some.inj h2])

/-- C5 as the code has it: take any reachable state `s0` and any interleaving
from it of the `Load`, build and `LoadOrStore` steps of any number of calls.
Whenever a call has returned a non-nil handler during that interleaving, (1) a
record is stored under its key and the call returned the handler of that
record; (2) exactly one goroutine is bound to that record; (3) exactly one
goroutine for the key has not yet performed its `Delete`, and it is bound to
that record; (4) when the key was absent in `s0`, exactly one goroutine has been
started for the key during the interleaving; (5) when the key held a record in
`s0`, it still holds that record and no goroutine has been started for the key;
(6) when `s0` has no goroutine at all, as on a new manager, exactly one goroutine
exists for the key. -/
theorem calls_agree_on_stored (s0 s : System) (as : List Action) (h0 : Reachable s0)
    (hcalls : ∀ a ∈ as, a.isSched = false) (hrun : run s0 as = some s)
    (i : Nat) (cl : ClientCluster) (h : Handler)
    (hnew : s0.calls[i]? ≠ some (Call.returned cl (some h)))
    (hret : s.calls[i]? = some (Call.returned cl (some h))) :
    ∃ r, s.world.servers.Load cl.Uuid = some r ∧ r.handler = some h ∧
      (∃! (j : Nat), ∃ (g : Goroutine), s.world.goroutines[j]? = some g ∧ g.obj = r) ∧
      ((∃! (j : Nat), ∃ (g : Goroutine),
          s.world.goroutines[j]? = some g ∧ g.key = cl.Uuid ∧ g.beforeDelete = true) ∧
        ∀ (j : Nat) (g : Goroutine), s.world.goroutines[j]? = some g → g.key = cl.Uuid →
          g.beforeDelete = true → g.obj = r) ∧
      (s0.world.servers.Load cl.Uuid = none →
        ∃! (j : Nat), s0.world.goroutines.length ≤ j ∧
          ∃ (g : Goroutine), s.world.goroutines[j]? = some g ∧ g.key = cl.Uuid) ∧
      (∀ (q : record), s0.world.servers.Load cl.Uuid = some q →
        q = r ∧ ∀ (j : Nat) (g : Goroutine), s0.world.goroutines.length ≤ j →
          s.world.goroutines[j]? = some g → g.key ≠ cl.Uuid) ∧
      (s0.world.goroutines = [] →
        ∃! (j : Nat), ∃ (g : Goroutine), s.world.goroutines[j]? = some g ∧ g.key = cl.Uuid) := by
  have hinv0 := (Inv_of_reachable h0).1
  have hi := (Inv_run (Inv_of_reachable h0) hrun).1
  have hbase : Agree s0.calls s0 := fun k cm hd hk => Or.inl hk
  have hgrown0 : Grown s0 s0 := by
    refine ⟨fun _ _ => rfl, ?_, le_refl _, fun _ _ hq => hq⟩
    intro j g hj hg
    rw [List.getElem?_eq_none hj] at hg
    cases hg
  obtain ⟨hagree, hold, hfresh, hlen, hkeep⟩ := Agree_run hbase hgrown0 hcalls hrun
  rcases hagree i cl h hret with hc | ⟨r, h1, h2⟩
  · exact absurd hc hnew
  obtain ⟨j, g, hj, e1, e2, e3⟩ := hi.pending_of_stored cl.Uuid r h1
  have huniq : ∀ (m : Nat) (b : Goroutine), s.world.goroutines[m]? = some b →
      b.key = cl.Uuid → b.pc ≤ 1 → m = j :=
    fun m b hb hk hp => pending_same hi hb hj hk e1 hp e3
  have hspawned : s0.world.servers cl.Uuid = none → s0.world.goroutines.length ≤ j := by
    intro hnone
    by_contra hlt
    have hsame := hold j (by omega)
    rw [hj] at hsame
    have := hinv0.stored_of_pending j g hsame.symm e3
    rw [e1, hnone] at this
    cases this
  have hfour : s0.world.servers cl.Uuid = none →
      ∃! (m : Nat), s0.world.goroutines.length ≤ m ∧
        ∃ (b : Goroutine), s.world.goroutines[m]? = some b ∧ b.key = cl.Uuid := by
    intro hnone
    refine ⟨j, ⟨hspawned hnone, g, hj, e1⟩, ?_⟩
    rintro m ⟨hm, b, hb, hk⟩
    exact huniq m b hb hk (by rw [hfresh m b hm hb]; exact Nat.zero_le _)
  refine ⟨r, h1, h2, ?_, ⟨?_, ?_⟩, hfour, ?_, ?_⟩
  · refine ⟨j, ⟨g, hj, e2⟩, ?_⟩
    rintro m ⟨b, hb, e⟩
    exact hi.ctx_inj m j b g hb hj (by rw [e, e2])
  · refine ⟨j, ⟨g, hj, e1, (beforeDelete_iff g).2 e3⟩, ?_⟩
    rintro m ⟨b, hb, hk, hp⟩
    exact huniq m b hb hk ((beforeDelete_iff b).1 hp)
  · intro m b hb hk hp
    exact pending_bound hi h1 hb hk ((beforeDelete_iff b).1 hp)
  · intro q hq
    have hq2 := hkeep cl.Uuid q hq
    rw [h1] at hq2
    refine ⟨(Option.some.inj hq2).symm, ?_⟩
    intro m b hm hb hk
    obtain ⟨n, d, hd, f1, _, f3⟩ := hinv0.pending_of_stored cl.Uuid q hq
    have hn : n < s0.world.goroutines.length := by
      rcases Nat.lt_or_ge n s0.world.goroutines.length with hlt | hge
      · exact hlt
      · rw [List.getElem?_eq_none hge] at hd
        cases hd
    have hd2 : s.world.goroutines[n]? = some d := by rw [hold n hn]; exact hd
    have e4 := huniq m b hb hk (by rw [hfresh m b hm hb]; exact Nat.zero_le _)
    have e5 := huniq n d hd2 f1 f3
    omega
  · intro hnil
    have hnone : s0.world.servers cl.Uuid = none := by
      rcases hq : s0.world.servers cl.Uuid with _ | q
      · rfl
      · obtain ⟨n, d, hd, _⟩ := hinv0.pending_of_stored cl.Uuid q hq
        rw [hnil] at hd
        simp at hd
    obtain ⟨m, ⟨_, b, hb, hk⟩, hu⟩ := hfour hnone
    refine ⟨m, ⟨b, hb, hk⟩, ?_⟩
    rintro n ⟨d, hd, hk2⟩
    exact hu n ⟨by rw [hnil]; exact Nat.zero_le _, d, hd, hk2⟩

theorem calls_agree_on_stored_witness :
    raceDoneSystem.calls = [Call.returned demoCluster (some 100),
      Call.returned demoCluster (some 100)] ∧
    ∃ r, raceDoneSystem.world.servers.Load demoCluster.Uuid = some r ∧ r.handler = some 100 ∧
      ∃! (j : Nat), ∃ (g : Goroutine),
        raceDoneSystem.world.goroutines[j]? = some g ∧ g.key = demoCluster.Uuid :=
  have h := calls_agree_on_stored System.empty raceDoneSystem raceDoneRun ⟨[], rfl⟩
    (by simp [raceDoneRun, raceRun, Action.isSched]) rfl 1 demoCluster 100
    (by simp [System.empty]) rfl
  ⟨rfl, h.choose, h.choose_spec.1, h.choose_spec.2.1, h.choose_spec.2.2.2.2.2.2 rfl⟩

/-- C5 fails as stated: a single call whose lister finds no cluster completes,
and afterwards no record is visible under the key and no goroutine exists. -/
theorem no_record_when_build_fails :
    run System.empty absentRun = some absentSystem ∧
    absentSystem.calls = [Call.returned demoCluster none] ∧
    absentSystem.world.servers.Load demoCluster.Uuid = none ∧
    absentSystem.world.goroutines = [] :=
  ⟨rfl, rfl, rfl, rfl⟩

/-! ## Exact timers never block -/

theorem Later_step {s t : System} {a : Action} {j : Nat} {k : String} (h : Later s j k)
    (hs : step s a = some t) : Later t j k := by
  obtain ⟨hlen, h⟩ := h
  by_cases hsch : a.isSched = false
  · rcases (step_other hs hsch).2 with hg | ⟨_, b, _, _, hg⟩
    · unfold Later
      rw [hg]
      exact ⟨hlen, h⟩
    · unfold Later
      rw [hg]
      refine ⟨by simp only [List.length_append, List.length_singleton]; omega, ?_⟩
      intro i g hi hk hp
      rcases (getElem?_append_one _ _ _ _).1 hi with hi | ⟨e, _⟩
      · exact h i g hi hk hp
      · omega
  · cases a with
    | sched m =>
      obtain ⟨g0, ins, hm, _, _, hg, _⟩ := step_sched_eq hs
      unfold Later
      rw [hg]
      refine ⟨by rw [List.length_set]; exact hlen, ?_⟩
      intro i g hi hk hp
      rcases (getElem?_set_iff _ _ _ _ _).1 hi with ⟨e1, _, e2⟩ | ⟨_, e2⟩
      · subst e1 e2
        exact h i g0 hm hk (by simp only [Goroutine.advance] at hp; omega)
      · exact h i g e2 hk hp
    | invoke c => simp [Action.isSched] at hsch
    | load i => simp [Action.isSched] at hsch
    | build i x c => simp [Action.isSched] at hsch
    | store i => simp [Action.isSched] at hsch
    | tick d => simp [Action.isSched] at hsch

theorem Later_run {as : List Action} {j : Nat} {k : String} :
    ∀ {s t : System}, Later s j k → run s as = some t → Later t j k := by
  induction as with
  | nil =>
    intro s t h hr
    simp only [run, Option.some.injEq] at hr
    subst hr
    exact h
  | cons a as ih =>
    intro s t h hr
    simp only [run] at hr
    rcases hstep : step s a with _ | u
    · rw [hstep] at hr
      cases hr
    · rw [hstep] at hr
      exact ih (Later_step h hstep) hr

theorem OnTime_step {s t : System} {a : Action} (h : OnTime s) (hp : punctual s a = true)
    (hs : step s a = some t) : OnTime t := by
  by_cases ha : a.isSched = false
  · obtain ⟨hn, hg⟩ := step_other hs ha
    cases a with
    | tick d =>
      simp only at hn
      rcases hg with hg | ⟨hst, _⟩
      · intro j g hj hpc
        rw [hg] at hj
        simp only [punctual, List.all_eq_true] at hp
        have := hp g (List.getElem?_mem hj)
        simp only [Goroutine.finished, Bool.or_eq_true, decide_eq_true_eq] at this
        omega
      · simp [Action.isStore] at hst
    | sched i => simp [Action.isSched] at ha
    | invoke c =>
      simp only [Nat.add_zero] at hn
      rcases hg with hg | ⟨hst, _⟩
      · intro j g hj hpc
        rw [hg] at hj
        rw [hn]
        exact h j g hj hpc
      · simp [Action.isStore] at hst
    | load i =>
      simp only [Nat.add_zero] at hn
      rcases hg with hg | ⟨hst, _⟩
      · intro j g hj hpc
        rw [hg] at hj
        rw [hn]
        exact h j g hj hpc
      · simp [Action.isStore] at hst
    | build i x c =>
      simp only [Nat.add_zero] at hn
      rcases hg with hg | ⟨hst, _⟩
      · intro j g hj hpc
        rw [hg] at hj
        rw [hn]
        exact h j g hj hpc
      · simp [Action.isStore] at hst
    | store i =>
      simp only [Nat.add_zero] at hn
      intro j g hj hpc
      rw [hn]
      rcases hg with hg | ⟨_, b, _, hb, hg⟩
      · rw [hg] at hj
        exact h j g hj hpc
      · rw [hg] at hj
        rcases (getElem?_append_one _ _ _ _).1 hj with hj | ⟨_, e⟩
        · exact h j g hj hpc
        · rw [e, hb]
  · cases a with
    | sched i =>
      obtain ⟨g0, ins, hi, _, _, hg, hn⟩ := step_sched_eq hs
      intro j g hj hpc
      rw [hg] at hj
      rw [hn]
      rcases (getElem?_set_iff _ _ _ _ _).1 hj with ⟨_, _, e2⟩ | ⟨_, e2⟩
      · subst e2
        cases ins <;> simp [Goroutine.advance, Instr.wake]
      · exact h j g e2 hpc
    | invoke c => simp [Action.isSched] at ha
    | load i => simp [Action.isSched] at ha
    | build i x c => simp [Action.isSched] at ha
    | store i => simp [Action.isSched] at ha
    | tick d => simp [Action.isSched] at ha

theorem OnTime_run {as : List Action} :
    ∀ {s t : System}, OnTime s → runPunctual s as = some t → OnTime t := by
  induction as with
  | nil =>
    intro s t h hr
    simp only [runPunctual, Option.some.injEq] at hr
    subst hr
    exact h
  | cons a as ih =>
    intro s t h hr
    obtain ⟨hp, u, hu, hr2⟩ := runPunctual_cons hr
    exact ih (OnTime_step h hp hu) hr2

theorem OnTime_empty : OnTime System.empty := by
  intro j g hj
  simp [System.empty, World.empty] at hj

theorem remaining_set {l : List Goroutine} : ∀ {j : Nat} {g a : Goroutine},
    l[j]? = some g → g.pc < 4 → a.pc = g.pc + 1 →
    ((l.set j a).map (fun g => 4 - g.pc)).sum + 1 = (l.map (fun g => 4 - g.pc)).sum := by
  induction l with
  | nil =>
    intro j g a hj
    simp at hj
  | cons x xs ih =>
    intro j g a hj hp ha
    cases j with
    | zero =>
      simp only [List.getElem?_cons_zero, Option.some.injEq] at hj
      subst hj
      simp only [List.set_cons_zero, List.map_cons, List.sum_cons]
      omega
    | succ n =>
      simp only [List.getElem?_cons_succ] at hj
      have := ih hj hp ha
      simp only [List.set_cons_succ, List.map_cons, List.sum_cons]
      omega

theorem runPunctual_step {s u t : System} {a : Action} {as : List Action}
    (hp : punctual s a = true) (hs : step s a = some u) (hr : runPunctual u as = some t) :
    runPunctual s (a :: as) = some t := by
  simp only [runPunctual, hp, hs, if_true, Option.bind]
  exact hr

theorem next_of_lt {g : Goroutine} (h : g.pc < 4) : ∃ ins, g.next = some ins := by
  unfold Goroutine.next evictionScheduler
  rcases hp : g.pc with _ | _ | _ | _ | n
  · exact ⟨_, rfl⟩
  · exact ⟨_, rfl⟩
  · exact ⟨_, rfl⟩
  · exact ⟨_, rfl⟩
  · omega

/-- With exact timers and no goroutine overdue, the goroutines and the clock
alone can always take the system to any later time: run every statement that is
due, then let a nanosecond pass, and repeat. -/
theorem timers_progress : ∀ (n : Nat) (s : System) (t : Nat), OnTime s → s.world.now ≤ t →
    (t - s.world.now) + remaining s ≤ n →
    ∃ cs u, runPunctual s cs = some u ∧ u.world.now = t ∧ (∀ a ∈ cs, a.isTimer = true) ∧
      u.world.goroutines.length = s.world.goroutines.length := by
  intro n
  induction n with
  | zero =>
    intro s t _ hle hn
    exact ⟨[], s, rfl, by omega, by simp, rfl⟩
  | succ n ih =>
    intro s t hon hle hn
    by_cases ht : s.world.now = t
    · exact ⟨[], s, rfl, ht, by simp, rfl⟩
    by_cases hdue : ∃ (j : Nat) (g : Goroutine), s.world.goroutines[j]? = some g ∧ g.pc < 4 ∧
        g.clock ≤ s.world.now
    · obtain ⟨j, g, hj, hpc, hd⟩ := hdue
      have hclock : g.clock = s.world.now := Nat.le_antisymm hd (hon j g hj hpc)
      obtain ⟨ins, hnext⟩ := next_of_lt hpc
      have hex : ∃ u, step s (Action.sched j) = some u := by
        simp [step, hj, hnext, hd]
      obtain ⟨u, hstep⟩ := hex
      have hp : punctual s (Action.sched j) = true := by
        simp [punctual, hj, hclock]
      obtain ⟨g0, ins0, hj0, _, _, hg, hnow⟩ := step_sched_eq hstep
      rw [hj] at hj0
      cases hj0
      have hrem : remaining u + 1 = remaining s := by
        unfold remaining
        rw [hg]
        exact remaining_set hj hpc rfl
      have hlen : u.world.goroutines.length = s.world.goroutines.length := by
        rw [hg, List.length_set]
      obtain ⟨cs, v, hr, hv, hcs, hl⟩ := ih u t (OnTime_step hon hp hstep) (by omega) (by omega)
      refine ⟨Action.sched j :: cs, v, runPunctual_step hp hstep hr, hv, ?_, by rw [hl, hlen]⟩
      intro a ha
      rcases List.mem_cons.1 ha with e | hmem
      · rw [e]; rfl
      · exact hcs a hmem
    · have hstep : step s (Action.tick 1) =
          some { s with world := { s.world with now := s.world.now + 1 } } := rfl
      have hp : punctual s (Action.tick 1) = true := by
        simp only [punctual, List.all_eq_true]
        intro g hg
        obtain ⟨j, hj⟩ := List.mem_iff_getElem?.1 hg
        simp only [Goroutine.finished, Bool.or_eq_true, decide_eq_true_eq]
        by_cases hpc : g.pc < 4
        · right
          by_contra hlate
          exact hdue ⟨j, g, hj, hpc, by omega⟩
        · left
          omega
      have hlt : s.world.now < t := by omega
      obtain ⟨cs, v, hr, hv, hcs, hl⟩ := ih _ t (OnTime_step hon hp hstep)
        (by simp only; omega) (by simp only [remaining] at hn ⊢; omega)
      refine ⟨Action.tick 1 :: cs, v, runPunctual_step hp hstep hr, hv, ?_, hl⟩
      intro a ha
      rcases List.mem_cons.1 ha with e | hmem
      · rw [e]; rfl
      · exact hcs a hmem

/-- C8.  A record `r` is inserted under the key at time `T`.  (1) The goroutine
started for it is the sequence sleep ten minutes, delete the key, sleep one
minute, invoke the cancel function of `r`.

With exact timers (a statement runs at the instant its goroutine wakes up;
`time.Sleep d` wakes it exactly `d` later), whatever calls and goroutine steps
follow, lookups that hit included: (2) while the time is before `T + 10 min` the
key still holds `r`; (3) once the time is past `T + 10 min` the key no longer
holds `r`: any record it holds was inserted later, by a `LoadOrStore` that
started a later goroutine for this key, and it holds nothing when there is no
such goroutine; (4) while the time is before `T + 11 min` the context of `r` is
not cancelled; (5) once the time is past `T + 11 min` it is cancelled; (6) the
`Delete` of that goroutine is due at `T + 10 min` and its cancel at
`T + 11 min`, whatever lookups happened.

When the timers have been exact since the manager was made: (7) from every
state so reached the goroutines and the clock alone take the system to any
later time, so the times of (3) and (5) are reached; (8) for every time past
`T + 11 min` there is an execution of the goroutines that reaches it, and there
the key holds nothing and the context of `r` is cancelled.

(9) Under every timing that `time.Sleep` allows, exact or late, the key holds
`r` while the time is before `T + 10 min` and the context of `r` is not
cancelled while the time is before `T + 11 min`. -/
theorem eviction_timeline (s1 s2 : System) (i : Nat) (cl : ClientCluster) (r : record)
    (h1 : Reachable s1) (hi : s1.calls[i]? = some (Call.built cl r))
    (hmiss : s1.world.servers.Load cl.Uuid = none)
    (h2 : step s1 (Action.store i) = some s2) :
    (s2.world.goroutines = s1.world.goroutines ++
        [{ key := cl.Uuid, obj := r, pc := 0, clock := s1.world.now }] ∧
      evictionScheduler cl.Uuid r =
        [Instr.sleep (10 * Minute), Instr.delete cl.Uuid, Instr.sleep Minute, Instr.cancel r] ∧
      Minute = 60 * 1000000000) ∧
    (∀ (bs : List Action) (s3 : System), runPunctual s2 bs = some s3 →
      (s3.world.now < s1.world.now + 10 * Minute → s3.world.servers.Load cl.Uuid = some r) ∧
      (s1.world.now + 10 * Minute < s3.world.now →
        s3.world.servers.Load cl.Uuid ≠ some r ∧
        (∀ (q : record), s3.world.servers.Load cl.Uuid = some q →
          ∃ (j : Nat) (g : Goroutine), s1.world.goroutines.length < j ∧
            s3.world.goroutines[j]? = some g ∧ g.key = cl.Uuid ∧ g.obj = q) ∧
        ((∀ (j : Nat) (g : Goroutine), s1.world.goroutines.length < j →
            s3.world.goroutines[j]? = some g → g.key ≠ cl.Uuid) →
          s3.world.servers.Load cl.Uuid = none)) ∧
      (s3.world.now < s1.world.now + 10 * Minute + Minute →
        s3.world.cancelled r.cancel = false) ∧
      (s1.world.now + 10 * Minute + Minute < s3.world.now →
        s3.world.cancelled r.cancel = true) ∧
      (∀ (g : Goroutine), s3.world.goroutines[s1.world.goroutines.length]? = some g →
        (g.next = some (Instr.delete cl.Uuid) → g.clock = s1.world.now + 10 * Minute) ∧
        (g.next = some (Instr.cancel r) → g.clock = s1.world.now + 10 * Minute + Minute))) ∧
    (∀ (as : List Action), runPunctual System.empty as = some s1 →
      (∀ (bs : List Action) (s3 : System), runPunctual s2 bs = some s3 →
        ∀ (t : Nat), s3.world.now ≤ t →
          ∃ (cs : List Action) (s4 : System), runPunctual s3 cs = some s4 ∧
            s4.world.now = t ∧ (∀ a ∈ cs, a.isTimer = true)) ∧
      (∀ (t : Nat), s1.world.now + 10 * Minute + Minute < t →
        ∃ (cs : List Action) (s4 : System), runPunctual s2 cs = some s4 ∧
          s4.world.now = t ∧ (∀ a ∈ cs, a.isTimer = true) ∧
          s4.world.servers.Load cl.Uuid = none ∧ s4.world.cancelled r.cancel = true)) ∧
    (∀ (cs : List Action) (s4 : System), run s2 cs = some s4 →
      (s4.world.now < s1.world.now + 10 * Minute → s4.world.servers.Load cl.Uuid = some r) ∧
      (s4.world.now < s1.world.now + 10 * Minute + Minute →
        s4.world.cancelled r.cancel = false)) := by
  have hinv1 := Inv_of_reachable h1
  have hinv2 : Inv s2 := Inv_step hinv1 h2
  have hs2 : s2.world = { s1.world with
      servers := Function.update s1.world.servers cl.Uuid (some r),
      goroutines := s1.world.goroutines ++
        [{ key := cl.Uuid, obj := r, pc := 0, clock := s1.world.now }] } := by
    simp only [step, hi] at h2
    rw [store_miss cl r s1.world hmiss] at h2
    simp only [Option.some.injEq] at h2
    subst h2
    rfl
  have hg2 : s2.world.goroutines[s1.world.goroutines.length]? =
      some { key := cl.Uuid, obj := r, pc := 0, clock := s1.world.now } := by
    rw [hs2]
    exact (getElem?_append_one _ _ _ _).2 (Or.inr ⟨rfl, rfl⟩)
  have hnow2 : s2.world.now = s1.world.now := by rw [hs2]
  have hlen2 : s2.world.goroutines.length = s1.world.goroutines.length + 1 := by
    rw [hs2]
    simp
  have hstored2 : s2.world.servers cl.Uuid = some r := by
    rw [hs2]
    simp
  have ht2 : Timeline s2 s1.world.goroutines.length cl.Uuid r s1.world.now :=
    ⟨_, hg2, rfl, rfl, by rw [hnow2], fun _ => by rw [hnow2], Or.inl ⟨rfl, rfl⟩⟩
  have hlater2 : Later s2 s1.world.goroutines.length cl.Uuid := by
    refine ⟨by omega, ?_⟩
    intro m g hm hk hp
    exact le_of_eq (pending_same hinv2.1 hg2 hm rfl hk (Nat.zero_le _) hp)
  have hexact : ∀ (bs : List Action) (s3 : System), runPunctual s2 bs = some s3 →
      (s3.world.now < s1.world.now + 10 * Minute → s3.world.servers.Load cl.Uuid = some r) ∧
      (s1.world.now + 10 * Minute < s3.world.now →
        s3.world.servers.Load cl.Uuid ≠ some r ∧
        (∀ (q : record), s3.world.servers.Load cl.Uuid = some q →
          ∃ (j : Nat) (g : Goroutine), s1.world.goroutines.length < j ∧
            s3.world.goroutines[j]? = some g ∧ g.key = cl.Uuid ∧ g.obj = q) ∧
        ((∀ (j : Nat) (g : Goroutine), s1.world.goroutines.length < j →
            s3.world.goroutines[j]? = some g → g.key ≠ cl.Uuid) →
          s3.world.servers.Load cl.Uuid = none)) ∧
      (s3.world.now < s1.world.now + 10 * Minute + Minute →
        s3.world.cancelled r.cancel = false) ∧
      (s1.world.now + 10 * Minute + Minute < s3.world.now →
        s3.world.cancelled r.cancel = true) ∧
      (∀ (g : Goroutine), s3.world.goroutines[s1.world.goroutines.length]? = some g →
        (g.next = some (Instr.delete cl.Uuid) → g.clock = s1.world.now + 10 * Minute) ∧
        (g.next = some (Instr.cancel r) → g.clock = s1.world.now + 10 * Minute + Minute)) := by
    intro bs s3 h3
    have hinv3 : Inv s3 := Inv_run hinv2 (run_of_runPunctual h3)
    have hlater3 := Later_run hlater2 (run_of_runPunctual h3)
    obtain ⟨g, e1, e2, e3, e4, e5, e6⟩ := Timeline_run ht2 h3
    have hre : s1.world.now + 10 * Minute < s3.world.now →
        ∀ (q : record), s3.world.servers cl.Uuid = some q →
          ∃ (j : Nat) (b : Goroutine), s1.world.goroutines.length < j ∧
            s3.world.goroutines[j]? = some b ∧ b.key = cl.Uuid ∧ b.obj = q := by
      intro hlt q hq
      obtain ⟨m, b, hb, f1, f2, f3⟩ := hinv3.1.pending_of_stored cl.Uuid q hq
      have hle := hlater3.2 m b hb f1 f3
      have hne : m ≠ s1.world.goroutines.length := by
        intro e
        rw [e, e1] at hb
        cases hb
        omega
      exact ⟨m, b, by omega, hb, f1, f2⟩
    refine ⟨?_, ?_, ?_, ?_, ?_⟩
    · intro hlt
      have hp : g.pc ≤ 1 := by omega
      have := hinv3.1.stored_of_pending _ g e1 hp
      rw [e2, e3] at this
      exact this
    · intro hlt
      have hp : 2 ≤ g.pc := by omega
      refine ⟨not_stored_of_deleted hinv3.1 e1 hp cl.Uuid r (by rw [e3]), hre hlt, ?_⟩
      intro hnone
      rcases hq : s3.world.servers cl.Uuid with _ | q
      · exact hq
      · obtain ⟨m, b, hm, hb, hk, _⟩ := hre hlt q hq
        exact absurd hk (hnone m b hm hb)
    · intro hlt
      rw [cancelled_false_iff]
      intro hc
      obtain ⟨m, b, hb, f1, f2⟩ := hinv3.1.cancels_finished _ hc
      have := hinv3.1.ctx_inj m _ b g hb e1 (by rw [f1, e3])
      subst this
      rw [e1] at hb
      cases hb
      omega
    · intro hlt
      rw [cancelled_iff]
      have hp : 4 ≤ g.pc := by omega
      have := hinv3.1.finished_cancels _ g e1 hp
      rw [e3] at this
      exact this
    · intro b hb
      rw [e1] at hb
      cases hb
      constructor
      · intro hn
        rcases next_cases hn with ⟨_, e⟩ | ⟨hp, _⟩ | ⟨_, e⟩ | ⟨_, e⟩
        · cases e
        · omega
        · cases e
        · cases e
      · intro hn
        rcases next_cases hn with ⟨_, e⟩ | ⟨_, e⟩ | ⟨_, e⟩ | ⟨hp, _⟩
        · cases e
        · cases e
        · cases e
        · omega
  have hearly : ∀ (cs : List Action) (s4 : System), run s2 cs = some s4 →
      (s4.world.now < s1.world.now + 10 * Minute → s4.world.servers.Load cl.Uuid = some r) ∧
      (s4.world.now < s1.world.now + 10 * Minute + Minute →
        s4.world.cancelled r.cancel = false) := by
    intro cs s4 h4
    have hinv4 : Inv s4 := Inv_run hinv2 h4
    have hn2 : NotEarly s2 s1.world.goroutines.length cl.Uuid r s1.world.now :=
      ⟨_, hg2, rfl, rfl, Or.inl ⟨rfl, le_refl _⟩⟩
    obtain ⟨b, f1, f2, f3, f4⟩ := NotEarly_run hn2 h4
    constructor
    · intro hlt
      have hp : b.pc ≤ 1 := by omega
      have := hinv4.1.stored_of_pending _ b f1 hp
      rw [f2, f3] at this
      exact this
    · intro hlt
      rw [cancelled_false_iff]
      intro hc
      obtain ⟨m, d, hd, f5, f6⟩ := hinv4.1.cancels_finished _ hc
      have := hinv4.1.ctx_inj m _ d b hd f1 (by rw [f5, f3])
      subst this
      rw [f1] at hd
      cases hd
      omega
  refine ⟨⟨by rw [hs2], rfl, rfl⟩, hexact, ?_, hearly⟩
  intro as has
  have hon1 : OnTime s1 := OnTime_run OnTime_empty has
  have hp2 : punctual s1 (Action.store i) = true := rfl
  have hon2 : OnTime s2 := OnTime_step hon1 hp2 h2
  constructor
  · intro bs s3 h3 t ht
    obtain ⟨cs, s4, hr, hn, hcs, _⟩ :=
      timers_progress _ s3 t (OnTime_run hon2 h3) ht (le_refl _)
    exact ⟨cs, s4, hr, hn, hcs⟩
  · intro t ht
    obtain ⟨cs, s4, hr, hn, hcs, hl⟩ :=
      timers_progress _ s2 t hon2 (by omega) (le_refl _)
    obtain ⟨_, hb, _, hd, _⟩ := hexact cs s4 hr
    refine ⟨cs, s4, hr, hn, hcs, ?_, hd (by omega)⟩
    refine (hb (by omega)).2.2 ?_
    intro j g hj hg
    rw [List.getElem?_eq_none (by omega)] at hg
    cases hg

theorem eviction_timeline_witness :
    evictedSystem.world.now = 11 * Minute + 1 ∧
    evictedSystem.calls = [Call.returned demoCluster (some 100),
      Call.returned demoCluster (some 100)] ∧
    evictedSystem.world.servers.Load "uuid-1" = none ∧
    evictedSystem.world.cancelled 0 = true ∧
    ∃ (cs : List Action) (s4 : System), runPunctual soloSystem cs = some s4 ∧
      s4.world.now = 12 * Minute ∧ (∀ a ∈ cs, a.isTimer = true) ∧
      s4.world.servers.Load "uuid-1" = none ∧ s4.world.cancelled 0 = true :=
  have h := eviction_timeline builtSystem soloSystem 0 demoCluster
    { handler := some 100, ctx := 0, cancel := 0 } ⟨builtRun, rfl⟩ rfl rfl rfl
  have h3 := h.2.1 evictionRun evictedSystem rfl
  ⟨rfl, rfl,
    (h3.2.1 (by decide)).2.2 (fun j g hj hg => by
      have hlen : evictedSystem.world.goroutines.length = 1 := rfl
      have hj1 : 0 < j := hj
      rw [List.getElem?_eq_none (by omega)] at hg
      cases hg),
    h3.2.2.2.1 (by decide),
    (h.2.2.1 builtRun rfl).2 (12 * Minute) (by decide)⟩

end Cluster
